import Mathlib

/-!
# dumb: status transition and record upsert

A shallow embedding of `dumb.go`: the `Repo` record, the reflective
`setTime`, and `run`, whose body appends a placeholder record, scans the
list for the first record with the target name, updates it, and drops the
placeholder again when an earlier record matched.

The decoded list is a `[]*Repo`: the JSON decoder allocates one `Repo` per
array element and stores a nil pointer for a `null` element.  Pointers are
modelled as `Option Repo`, `none` for nil; writing through `repo` is writing
the element at the index the loop is at.  `run.loopPtr` and `run.upsertPtr`
are lines 83-109 on such lists and `run` calls them; `run.loop` and
`run.upsert` are the same lines on lists of records, without nil pointers,
where the two agree (`loopPtr_map`).  The specification's own description of
the upsert is `spec.upsert`, to compare the code with.  The Go standard library
(`time`, `strings`, `strconv`) and rclone's `fs.SizeSuffix` are not part of
the repository; `time` and `strings.Contains` are modelled by what they
compute, the others are parameters.
-/

namespace Dumb

/-! ## Go library: `strings`, `time` -/

/-- Go's `strings.Contains(s, substr)`: `substr` occurs in `s` as a contiguous
run of bytes; the empty string occurs in every string. -/
def strings.Contains (s substr : String) : Bool :=
  s.data.tails.any (fun t => substr.data.isPrefixOf t)

/-- A `*time.Location`, as far as formatting needs it: the offset, in seconds
east of UTC, in force at a given Unix second. -/
structure Location where
  offsetAt : Int → Int

/-- The location of a fixed zone (`time.FixedZone`, and `time.UTC` for 0). -/
def Location.fixed (offset : Int) : Location := ⟨fun _ => offset⟩

/-- A `time.Time`: an instant, as seconds since 1970-01-01T00:00:00Z and
nanoseconds within that second, and the location it is shown in. -/
structure Time where
  sec : Int
  nsec : Nat
  loc : Location

/-- Go's `t.Unix()`: whole seconds since the epoch (rounding down). -/
def Time.Unix (t : Time) : Int := t.sec

/-- Go's `t.Add(d)`, with `d` a `time.Duration` in nanoseconds. -/
def Time.Add (t : Time) (d : Int) : Time :=
  let total : Int := (t.nsec : Int) + d
  { t with sec := t.sec + total / 1000000000, nsec := (total % 1000000000).toNat }

/-- Proleptic Gregorian date `(year, month, day)` of a day count relative to
1970-01-01. -/
def civilFromDays (z : Int) : Int × Int × Int :=
  let z := z + 719468
  let era := z / 146097
  let doe := z - era * 146097
  let yoe := (doe - doe / 1460 + doe / 36524 - doe / 146096) / 365
  let doy := doe - (365 * yoe + yoe / 4 - yoe / 100)
  let mp := (5 * doy + 2) / 153
  let d := doy - (153 * mp + 2) / 5 + 1
  let m := if mp < 10 then mp + 3 else mp - 9
  (if m ≤ 2 then yoe + era * 400 + 1 else yoe + era * 400, m, d)

/-- Day count relative to 1970-01-01 of a proleptic Gregorian date. -/
def daysFromCivil (y m d : Int) : Int :=
  let y := if m ≤ 2 then y - 1 else y
  let era := y / 400
  let yoe := y - era * 400
  let doy := (153 * (if m > 2 then m - 3 else m + 9) + 2) / 5 + d - 1
  let doe := yoe * 365 + yoe / 4 - yoe / 100 + doy
  era * 146097 + doe - 719468

/-- The ASCII digit of `n % 10`. -/
def digitChar (n : Nat) : Char := Char.ofNat (48 + n % 10)

/-- Decimal digits of `n`, most significant first, in front of `acc`; `fuel`
bounds the number of digits. -/
def decimalDigits : Nat → Nat → List Char → List Char
  | 0, _, acc => acc
  | fuel + 1, n, acc =>
    if n < 10 then digitChar n :: acc
    else decimalDigits fuel (n / 10) (digitChar n :: acc)

/-- Go's `appendInt(b, x, width)` of package `time`: the decimal form of `x`,
zero-padded to at least `width` digits, after a minus sign when `x < 0`. -/
def appendInt (x : Int) (width : Nat) : List Char :=
  let ds := decimalDigits (x.natAbs + 1) x.natAbs []
  (if x < 0 then ['-'] else []) ++ List.replicate (width - ds.length) '0' ++ ds

/-- The zone suffix of layout element `Z07:00`: `Z` for offset 0, else sign,
hours and minutes of the offset, seconds dropped (Go divides truncating). -/
def formatZone (offset : Int) : List Char :=
  if offset = 0 then ['Z']
  else
    let zone := Int.tdiv offset 60
    let sign := if zone < 0 then '-' else '+'
    let zone := if zone < 0 then -zone else zone
    sign :: (appendInt (zone / 60) 2 ++ ':' :: appendInt (zone % 60) 2)

/-- Go's `t.Format(time.RFC3339)`, layout `2006-01-02T15:04:05Z07:00`: the local
date and clock time at the offset of the location, followed by the zone. -/
def Time.Format (t : Time) : String :=
  let offset := t.loc.offsetAt t.sec
  let abs := t.sec + offset
  let clock := abs % 86400
  let (y, m, d) := civilFromDays (abs / 86400)
  String.mk (appendInt y 4 ++ '-' :: appendInt m 2 ++ '-' :: appendInt d 2 ++ 'T' ::
    appendInt (clock / 3600) 2 ++ ':' :: appendInt (clock % 3600 / 60) 2 ++ ':' ::
    appendInt (clock % 60) 2 ++ formatZone offset)

/-! ## Go library: parsing RFC 3339 -/

/-- Go's `isLeap(year)` of package `time`. -/
def isLeap (year : Int) : Bool :=
  year % 4 == 0 && (year % 100 != 0 || year % 400 == 0)

/-- Go's `daysIn(m, year)` of package `time`: the number of days of month `m`. -/
def daysIn (m year : Int) : Int :=
  if m = 2 then (if isLeap year then 29 else 28)
  else if m = 4 ∨ m = 6 ∨ m = 9 ∨ m = 11 then 30
  else 31

/-- The closure `parseUint(s, min, max)` of Go's `parseRFC3339`: `s` read as an
unsigned decimal number, which has to lie within `min` and `max`. -/
def parseUint (s : List Char) (min max : Int) : Option Int :=
  if s.all Char.isDigit then
    let x : Int := s.foldl (fun x c => x * 10 + ((c.toNat - 48 : Nat) : Int)) 0
    if x < min ∨ max < x then none else some x
  else none

/-- The Go slice expression `s[lo:hi]`, for `lo ≤ hi ≤ len(s)`. -/
def slice (s : List Char) (lo hi : Nat) : List Char := (s.drop lo).take (hi - lo)

/-- The fractional second of Go's `parseRFC3339`: when the input goes on with a
dot and a digit, the nanoseconds the digits stand for (digits after the ninth
are dropped) and the input after the digits. -/
def parseFraction (s : List Char) : Nat × List Char :=
  match s with
  | '.' :: c :: cs =>
    if c.isDigit then
      let ds := (c :: cs).takeWhile Char.isDigit
      let nine := (ds ++ List.replicate 9 '0').take 9
      (nine.foldl (fun x c => x * 10 + (c.toNat - 48)) 0, (c :: cs).dropWhile Char.isDigit)
    else (0, s)
  | _ => (0, s)

/-- The time zone of Go's `parseRFC3339`: `Z`, or sign, two digits of hours (at
most 23), a colon and two digits of minutes (at most 59); the result is the
offset in seconds east of UTC. -/
def parseZone (s : List Char) : Option Int :=
  if s = ['Z'] then some 0
  else if s.length ≠ 6 then none
  else
    match parseUint (slice s 1 3) 0 23, parseUint (slice s 4 6) 0 59 with
    | some hr, some mm =>
      if (s[0]? = some '-' ∨ s[0]? = some '+') ∧ s[3]? = some ':' then
        some (if s[0]? = some '-' then -((hr * 60 + mm) * 60) else (hr * 60 + mm) * 60)
      else none
    | _, _ => none

/-- Go's `parseRFC3339(s, local)` of package `time`, which `time.Parse` runs for
the layout `time.RFC3339`: the instant a string of the form
`2006-01-02T15:04:05[.000]Z07:00` denotes, in the fixed zone of its offset. -/
def parseRFC3339 (str : String) : Option Time :=
  let s := str.data
  if s.length < 19 then none
  else
    match parseUint (slice s 0 4) 0 9999, parseUint (slice s 5 7) 1 12 with
    | some year, some month =>
      match parseUint (slice s 8 10) 1 (daysIn month year), parseUint (slice s 11 13) 0 23,
        parseUint (slice s 14 16) 0 59, parseUint (slice s 17 19) 0 59 with
      | some day, some hour, some min, some sec =>
        if s[4]? = some '-' ∧ s[7]? = some '-' ∧ s[10]? = some 'T' ∧ s[13]? = some ':'
            ∧ s[16]? = some ':' then
          let (nsec, rest) := parseFraction (s.drop 19)
          match parseZone rest with
          | some zoneOffset =>
            some ⟨daysFromCivil year month day * 86400 + hour * 3600 + min * 60 + sec
              - zoneOffset, nsec, Location.fixed zoneOffset⟩
          | none => none
        else none
      | _, _, _, _ => none
    | _, _ => none

/-- The instants whose RFC 3339 form is exact: the offset of the location is a
whole number of minutes, less than a day, and the local date lies between
0000-01-01 and 9999-12-31, so that the year has four digits. -/
def Time.rfc3339Exact (t : Time) : Prop :=
  t.loc.offsetAt t.sec % 60 = 0 ∧ -86400 < t.loc.offsetAt t.sec ∧
    t.loc.offsetAt t.sec < 86400 ∧ -62167219200 ≤ t.sec + t.loc.offsetAt t.sec ∧
    t.sec + t.loc.offsetAt t.sec < 253402300800

instance (t : Time) : Decidable t.rfc3339Exact := by
  unfold Time.rfc3339Exact; infer_instance

/-! ## The record -/

/-- The source's `type Status string`. -/
abbrev Status := String

def Pending : Status := "pending"
def Syncing : Status := "syncing"
def Success : Status := "success"
def Failed : Status := "failed"

/-- The source's `Repo` struct, fields in declaration order. -/
structure Repo where
  Name : String := ""
  IsMaster : Bool := false
  Upstream : String := ""
  Status : Status := ""
  LastUpdateISO8601 : String := ""
  LastUpdateTimestamp : Int := 0
  LastStartedISO8601 : String := ""
  LastStartedTimestamp : Int := 0
  LastEndedISO8601 : String := ""
  LastEndedTimestamp : Int := 0
  NextScheduleISO8601 : String := ""
  NextScheduleTimestamp : Int := 0
  SizeHumanReadable : String := ""
  SizeBytes : Int := 0
  deriving DecidableEq, Repr

/-- The statuses `run` lets through its `switch` (lines 55-60). -/
def validStatus (status : Status) : Prop :=
  status = Syncing ∨ status = Success ∨ status = Failed

instance (status : Status) : Decidable (validStatus status) := by
  unfold validStatus; infer_instance

/-- The kinds `reflect` distinguishes among the fields of `Repo`. -/
inductive Kind where
  | String
  | Bool
  | Int64
  deriving DecidableEq, Repr

/-- What `reflect.TypeOf(Repo{}).Field(i)` tells `setTime`: the kind of the
field and the value of its `status` tag (`""` when the tag has no such key). -/
structure StructField where
  Name : String
  Kind : Kind
  statusTag : String
  deriving DecidableEq, Repr

/-- The fields of `Repo` in declaration order, as reflection lists them. -/
def Repo.fields : List StructField :=
  [ ⟨"Name", .String, ""⟩,
    ⟨"IsMaster", .Bool, ""⟩,
    ⟨"Upstream", .String, ""⟩,
    ⟨"Status", .String, ""⟩,
    ⟨"LastUpdateISO8601", .String, "success"⟩,
    ⟨"LastUpdateTimestamp", .Int64, ""⟩,
    ⟨"LastStartedISO8601", .String, "syncing"⟩,
    ⟨"LastStartedTimestamp", .Int64, ""⟩,
    ⟨"LastEndedISO8601", .String, "success,failed"⟩,
    ⟨"LastEndedTimestamp", .Int64, ""⟩,
    ⟨"NextScheduleISO8601", .String, "pending"⟩,
    ⟨"NextScheduleTimestamp", .Int64, ""⟩,
    ⟨"SizeHumanReadable", .String, ""⟩,
    ⟨"SizeBytes", .Int64, ""⟩ ]

/-- Go's `reflect.ValueOf(repo).Elem().Field(i).SetString(v)`: writes field `i`
when it is of kind string; `none` is the panic for any other field or index. -/
def Repo.SetString (r : Repo) (i : Nat) (v : String) : Option Repo :=
  match i with
  | 0 => some { r with Name := v }
  | 2 => some { r with Upstream := v }
  | 3 => some { r with Status := v }
  | 4 => some { r with LastUpdateISO8601 := v }
  | 6 => some { r with LastStartedISO8601 := v }
  | 8 => some { r with LastEndedISO8601 := v }
  | 10 => some { r with NextScheduleISO8601 := v }
  | 12 => some { r with SizeHumanReadable := v }
  | _ => none

/-- Go's `reflect.ValueOf(repo).Elem().Field(i).SetInt(v)`: writes field `i`
when it is of kind int64; `none` is the panic for any other field or index. -/
def Repo.SetInt (r : Repo) (i : Nat) (v : Int) : Option Repo :=
  match i with
  | 5 => some { r with LastUpdateTimestamp := v }
  | 7 => some { r with LastStartedTimestamp := v }
  | 9 => some { r with LastEndedTimestamp := v }
  | 11 => some { r with NextScheduleTimestamp := v }
  | 13 => some { r with SizeBytes := v }
  | _ => none

/-- The loop of `setTime` from field index `i` on, over the fields not yet
visited: a field whose `status` tag contains the status gets the RFC 3339
string, and the field after it the Unix seconds. -/
def setTime.loop (status : Status) (t : Time) : List StructField → Nat → Repo → Option Repo
  | [], _, repo => some repo
  | f :: fs, i, repo =>
    if !strings.Contains f.statusTag status then setTime.loop status t fs (i + 1) repo
    else
      match repo.SetString i t.Format with
      | none => none
      | some repo =>
        match repo.SetInt (i + 1) t.Unix with
        | none => none
        | some repo => setTime.loop status t fs (i + 1) repo

/-- The source's `setTime(repo, status, t)`; `none` is a panic of `reflect`. -/
def setTime (repo : Repo) (status : Status) (t : Time) : Option Repo :=
  setTime.loop status t Repo.fields 0 repo

/-! ## `run` -/

/-- How a call of `run` ends, the emitted list being a list of records (the
result type of `run.loop`; `PtrOutcome` is that of the loop on pointers). -/
inductive Outcome where
  /-- Line 107: the list was handed to the JSON encoder for standard output. -/
  | encoded (repoList : List Repo)
  /-- Line 109: `return nil` after the loop, nothing written. -/
  | returnedNil
  /-- An error was returned, nothing written. -/
  | returnedErr (msg : String)
  /-- A run-time panic. -/
  | panicked
  deriving DecidableEq, Repr

/-- The library functions `run` calls that are taken as parameters. -/
structure Externals where
  /-- Go's `strconv.ParseInt(s, 10, 64)`. -/
  ParseInt : String → Except String Int
  /-- Go's `time.ParseDuration(s)`, in nanoseconds. -/
  ParseDuration : String → Except String Int
  /-- The call `fs.SizeSuffix(n).ByteUnit()` of rclone. -/
  ByteUnit : Int → String

/-- Lines 89-99 of `run`, the writes through `repo` once the name matched:
status, size pair, the `pending` stamp at `now + schedule`, the stamp of the
new status at `now`; `none` is a panic inside `setTime`. -/
def run.update (ByteUnit : Int → String) (status : Status) (repoSize schedule : Int)
    (now : Time) (repo : Repo) : Option Repo :=
  let repo := { repo with Status := status }
  let repo :=
    if repoSize != 0 then
      { repo with SizeBytes := repoSize, SizeHumanReadable := ByteUnit repoSize }
    else repo
  match (if schedule != 0 then setTime repo Pending (now.Add schedule) else some repo) with
  | none => none
  | some repo => setTime repo status now

/-- The `for i, repo := range repoList` loop of `run` (lines 84-109) on a list
of records, that is, of pointers none of which is nil (`run.loopPtr` is the
loop on pointers), at index `i` with `rest` the records from `i` on;
`repoList` is the whole list. -/
def run.loop (ByteUnit : Int → String) (status : Status) (repoName : String)
    (repoSize schedule : Int) (now : Time) (repoList : List Repo) :
    List Repo → Nat → Outcome
  | [], _ => .returnedNil
  | repo :: rest, i =>
    if repo.Name != repoName then
      run.loop ByteUnit status repoName repoSize schedule now repoList rest (i + 1)
    else
      match run.update ByteUnit status repoSize schedule now repo with
      | none => .panicked
      | some repo =>
        let repoList := repoList.set i repo
        let repoList :=
          if i + 1 < repoList.length then repoList.take (repoList.length - 1) else repoList
        .encoded repoList

/-- Lines 83-109 of `run`, the upsert, on a list of records: append the
placeholder, then loop. -/
def run.upsert (ByteUnit : Int → String) (status : Status) (repoName : String)
    (repoSize schedule : Int) (now : Time) (repoList : List Repo) : Outcome :=
  let repoList := repoList ++ [{ Name := repoName, IsMaster := true }]
  run.loop ByteUnit status repoName repoSize schedule now repoList repoList 0

/-! ## `run` on the decoded pointers -/

/-- How lines 83-109 of `run` end on the decoded `[]*Repo`, whose elements
are pointers: `none` is a nil pointer, which the JSON decoder stores for a
`null` element and the encoder writes as `null`. -/
inductive PtrOutcome where
  /-- Line 107: the list was handed to the JSON encoder for standard output. -/
  | encoded (repoList : List (Option Repo))
  /-- Line 109: `return nil` after the loop, nothing written. -/
  | returnedNil
  /-- A run-time panic. -/
  | panicked
  deriving DecidableEq, Repr

/-- The loop of `run` (lines 84-109) over pointers: reading `repo.Name`
through a nil pointer (line 85) panics; everything else is `run.loop`. -/
def run.loopPtr (ByteUnit : Int → String) (status : Status) (repoName : String)
    (repoSize schedule : Int) (now : Time) (repoList : List (Option Repo)) :
    List (Option Repo) → Nat → PtrOutcome
  | [], _ => .returnedNil
  | none :: _, _ => .panicked
  | some repo :: rest, i =>
    if repo.Name != repoName then
      run.loopPtr ByteUnit status repoName repoSize schedule now repoList rest (i + 1)
    else
      match run.update ByteUnit status repoSize schedule now repo with
      | none => .panicked
      | some repo =>
        let repoList := repoList.set i (some repo)
        let repoList :=
          if i + 1 < repoList.length then repoList.take (repoList.length - 1) else repoList
        .encoded repoList

/-- Lines 83-109 of `run` over pointers: append the placeholder, then loop. -/
def run.upsertPtr (ByteUnit : Int → String) (status : Status) (repoName : String)
    (repoSize schedule : Int) (now : Time) (repoList : List (Option Repo)) : PtrOutcome :=
  let repoList := repoList ++ [some { Name := repoName, IsMaster := true }]
  run.loopPtr ByteUnit status repoName repoSize schedule now repoList repoList 0

/-- The usage message of line 59. -/
def usage : String :=
  "usage: dumb \x7bsyncing|success|failed\x7d <repo> [<size> [<next schedule>]] < src.json > dest.json"

/-- The source's `run`, given `os.Args`, what decoding standard input as
`[]*Repo` gives (a nil pointer for a `null` element), and the instant
`time.Now()` returns.  `.error` is the error `run` returns; `.ok` says how the
call ends otherwise. -/
def run (ext : Externals) (Args : List String)
    (stdin : Except String (List (Option Repo))) (now : Time) : Except String PtrOutcome :=
  let status : Status := if Args.length > 2 then Args.getD 1 "" else ""
  if !(status == Syncing || status == Success || status == Failed) then .error usage
  else
    match Args.get? 2 with
    | none => .ok .panicked
    | some repoName =>
      match (if Args.length > 3 then ext.ParseInt (Args.getD 3 "") else .ok 0) with
      | .error e => .error e
      | .ok repoSize =>
        match (if Args.length > 4 then ext.ParseDuration (Args.getD 4 "") else .ok 0) with
        | .error e => .error e
        | .ok schedule =>
          match stdin with
          | .error e => .error e
          | .ok repoList =>
            .ok (run.upsertPtr ext.ByteUnit status repoName repoSize schedule now repoList)

/-- No nil pointer stands before the first record named `repoName`, nor
anywhere when no record has that name: the loop gets to the record it matches
without reading a name through a nil pointer. -/
def matchReachable (repoName : String) : List (Option Repo) → Bool
  | [] => true
  | none :: _ => false
  | some repo :: rest =>
    if repo.Name = repoName then true else matchReachable repoName rest

/-- The names of the records of a decoded collection, in order; a nil pointer
has none. -/
def recordNames (repoList : List (Option Repo)) : List String :=
  repoList.filterMap (fun x => x.map Repo.Name)

/-! ## The `status` tags -/

/-- The entries of a comma-separated list, read from the characters `cs` with
`cur` the characters of the entry being read, last first. -/
def tagEntries.go : List Char → List Char → List String
  | [], cur => [String.mk cur.reverse]
  | c :: cs, cur =>
    if c = ',' then String.mk cur.reverse :: tagEntries.go cs []
    else tagEntries.go cs (c :: cur)

/-- The statuses a `status` tag lists, separated by commas. -/
def tagEntries (tag : String) : List String := tagEntries.go tag.data []

/-! ## The upsert as the specification describes it -/

/-- The four timestamp pairs of a record. -/
inductive FieldPair where
  | LastUpdate
  | LastStarted
  | LastEnded
  | NextSchedule
  deriving DecidableEq, Repr

/-- The transition rule table of the specification (section 4.1): the pairs
stamped on entry to a status. -/
def spec.ruleTable (status : Status) : List FieldPair :=
  if status = Pending then [.NextSchedule]
  else if status = Syncing then [.LastStarted]
  else if status = Success then [.LastUpdate, .LastEnded]
  else if status = Failed then [.LastEnded]
  else []

/-- The stamping sub-operation of the specification: both components of the
pair written from the instant `t`. -/
def spec.stamp (t : Time) (r : Repo) : FieldPair → Repo
  | .LastUpdate => { r with LastUpdateISO8601 := t.Format, LastUpdateTimestamp := t.Unix }
  | .LastStarted => { r with LastStartedISO8601 := t.Format, LastStartedTimestamp := t.Unix }
  | .LastEnded => { r with LastEndedISO8601 := t.Format, LastEndedTimestamp := t.Unix }
  | .NextSchedule =>
    { r with NextScheduleISO8601 := t.Format, NextScheduleTimestamp := t.Unix }

/-- Steps 3a-3e of the specification's algorithm: the transitioned version of a
record. -/
def spec.transition (ByteUnit : Int → String) (status : Status) (size offset : Int)
    (now : Time) (r : Repo) : Repo :=
  let r := { r with Status := status }
  let r := if size ≠ 0 then { r with SizeHumanReadable := ByteUnit size, SizeBytes := size }
    else r
  let r := if offset ≠ 0 then (spec.ruleTable Pending).foldl (spec.stamp (now.Add offset)) r
    else r
  (spec.ruleTable status).foldl (spec.stamp now) r

/-- The "find by name" of the specification: the first index whose record has
the target name, if any; a null element is no record and has no name. -/
def spec.findByName (name : String) : List (Option Repo) → Option Nat
  | [] => none
  | none :: rs => (spec.findByName name rs).map (· + 1)
  | some r :: rs => if r.Name = name then some 0 else (spec.findByName name rs).map (· + 1)

/-- The explicit two-branch upsert of the specification: "update at index"
when the name is found, "insert new record" at the end otherwise. -/
def spec.upsert (ByteUnit : Int → String) (status : Status) (name : String)
    (size offset : Int) (now : Time) (l : List (Option Repo)) : List (Option Repo) :=
  match spec.findByName name l with
  | some i =>
    match l[i]? with
    | some (some r) => l.set i (some (spec.transition ByteUnit status size offset now r))
    | _ => l
  | none =>
    l ++ [some (spec.transition ByteUnit status size offset now
      { Name := name, IsMaster := true })]

/-! ## Stamps -/

/-- A timestamp pair `(iso, ts)` is stamped with the instant `t`: the string is
the RFC 3339 form of `t`, the integer its Unix seconds, and, when that form is
exact, parsing the string as RFC 3339 gives an instant whose Unix seconds are
the integer. -/
def stampedWith (iso : String) (ts : Int) (t : Time) : Prop :=
  iso = t.Format ∧ ts = t.Unix ∧
    (t.rfc3339Exact → (parseRFC3339 iso).map Time.Unix = some ts)

/-! ## Sample values for concrete instances -/

/-- An instant: 2026-11-04T14:04:00+01:00. -/
def sampleNow : Time := ⟨1793797440, 0, Location.fixed 3600⟩

/-- A location with the offsets the tz database gives Africa/Monrovia:
44 minutes 30 seconds west of UTC until 1972-01-07, UTC since. -/
def sampleLocation : Location := ⟨fun sec => if sec < 63593070 then -2670 else 0⟩

/-- A stand-in for rclone's byte-unit formatter. -/
def sampleByteUnit (n : Int) : String := toString n ++ " Byte"

/-- Stand-ins for the parsers of the standard library: decimal integers, and
no duration accepted. -/
def sampleExternals : Externals where
  ParseInt := fun s =>
    match s.toInt? with
    | some n => .ok n
    | none => .error "strconv.ParseInt: invalid syntax"
  ParseDuration := fun _ => .error "time: invalid duration"
  ByteUnit := sampleByteUnit

end Dumb

namespace Dumb

/-! ## Calendar arithmetic -/

/-- Within one of the first four centuries of a 400-year era: the year of the
era that `civilFromDays` computes, and the day of that year. -/
theorem yoe_century (k doe : Int) (hk : k = 0 ∨ k = 1 ∨ k = 2 ∨ k = 3)
    (h0 : 36524 * k ≤ doe) (h1 : doe ≤ 36524 * k + 36523) :
    0 ≤ (doe - doe / 1460 + k) / 365 ∧ (doe - doe / 1460 + k) / 365 ≤ 399 ∧
    0 ≤ doe - (365 * ((doe - doe / 1460 + k) / 365) + (doe - doe / 1460 + k) / 365 / 4
      - (doe - doe / 1460 + k) / 365 / 100) ∧
    doe - (365 * ((doe - doe / 1460 + k) / 365) + (doe - doe / 1460 + k) / 365 / 4
      - (doe - doe / 1460 + k) / 365 / 100) ≤ 365 ∧
    (doe - (365 * ((doe - doe / 1460 + k) / 365) + (doe - doe / 1460 + k) / 365 / 4
      - (doe - doe / 1460 + k) / 365 / 100) = 365 →
      ((doe - doe / 1460 + k) / 365 + 1) % 4 = 0 ∧
      ((doe - doe / 1460 + k) / 365 + 1) % 100 ≠ 0) := by
  have hq0 : 0 ≤ (doe - 36524 * k) / 1461 := by omega
  have hq1 : (doe - 36524 * k) / 1461 ≤ 24 := by omega
  have he : doe / 1460 = 25 * k + (doe - 36524 * k) / 1461
      + (24 * k + (doe - 36524 * k) / 1461 + (doe - 36524 * k) % 1461) / 1460 := by
    omega
  have hε : (24 * k + (doe - 36524 * k) / 1461 + (doe - 36524 * k) % 1461) / 1460 = 0 ∨
      (24 * k + (doe - 36524 * k) / 1461 + (doe - 36524 * k) % 1461) / 1460 = 1 := by
    omega
  have hb : (doe - doe / 1460 + k) / 365 = 100 * k + 4 * ((doe - 36524 * k) / 1461)
      + ((doe - 36524 * k) % 1461
        - (24 * k + (doe - 36524 * k) / 1461 + (doe - 36524 * k) % 1461) / 1460) / 365 := by
    rw [he]
    omega
  have hj0 : 0 ≤ ((doe - 36524 * k) % 1461
        - (24 * k + (doe - 36524 * k) / 1461 + (doe - 36524 * k) % 1461) / 1460) / 365 := by
    omega
  have hj1 : ((doe - 36524 * k) % 1461
        - (24 * k + (doe - 36524 * k) / 1461 + (doe - 36524 * k) % 1461) / 1460) / 365 ≤ 3 := by
    omega
  have hc : (doe - doe / 1460 + k) / 365 / 4 = 25 * k + (doe - 36524 * k) / 1461 := by
    rw [hb]; omega
  have hd : (doe - doe / 1460 + k) / 365 / 100 = k := by
    rw [hb]; omega
  rw [hc, hd, hb]
  refine ⟨by omega, by omega, by omega, by omega, ?_⟩
  intro h
  have hs : (doe - 36524 * k) % 1461 = 1460 := by omega
  have hj : ((doe - 36524 * k) % 1461
        - (24 * k + (doe - 36524 * k) / 1461 + (doe - 36524 * k) % 1461) / 1460) / 365 = 3 := by
    omega
  have hq : (doe - 36524 * k) / 1461 ≤ 23 := by omega
  rw [hj]
  constructor <;> omega

/-- The year of the era that `civilFromDays` computes lies in `0 … 399`, the
day of that year in `0 … 365`, and day 365 only occurs when the year (counted
from March) ends in a leap February. -/
theorem yoe_era (doe : Int) (h0 : 0 ≤ doe) (h1 : doe ≤ 146096) :
    0 ≤ (doe - doe / 1460 + doe / 36524 - doe / 146096) / 365 ∧
    (doe - doe / 1460 + doe / 36524 - doe / 146096) / 365 ≤ 399 ∧
    0 ≤ doe - (365 * ((doe - doe / 1460 + doe / 36524 - doe / 146096) / 365)
      + (doe - doe / 1460 + doe / 36524 - doe / 146096) / 365 / 4
      - (doe - doe / 1460 + doe / 36524 - doe / 146096) / 365 / 100) ∧
    doe - (365 * ((doe - doe / 1460 + doe / 36524 - doe / 146096) / 365)
      + (doe - doe / 1460 + doe / 36524 - doe / 146096) / 365 / 4
      - (doe - doe / 1460 + doe / 36524 - doe / 146096) / 365 / 100) ≤ 365 ∧
    (doe - (365 * ((doe - doe / 1460 + doe / 36524 - doe / 146096) / 365)
      + (doe - doe / 1460 + doe / 36524 - doe / 146096) / 365 / 4
      - (doe - doe / 1460 + doe / 36524 - doe / 146096) / 365 / 100) = 365 →
      ((doe - doe / 1460 + doe / 36524 - doe / 146096) / 365 + 1) % 4 = 0 ∧
      (((doe - doe / 1460 + doe / 36524 - doe / 146096) / 365 + 1) % 100 ≠ 0 ∨
       ((doe - doe / 1460 + doe / 36524 - doe / 146096) / 365 + 1) % 400 = 0)) := by
  by_cases hlast : doe = 146096
  · subst hlast
    decide
  · have hg : doe / 146096 = 0 := by omega
    have hk : doe / 36524 = 0 ∨ doe / 36524 = 1 ∨ doe / 36524 = 2 ∨ doe / 36524 = 3 := by
      omega
    have h := yoe_century (doe / 36524) doe hk (by omega) (by omega)
    rw [hg, Int.sub_zero]
    exact ⟨h.1, h.2.1, h.2.2.1, h.2.2.2.1, fun e => ⟨(h.2.2.2.2 e).1, Or.inl (h.2.2.2.2 e).2⟩⟩

/-- From the year of the era and the day of that year to the date and back. -/
theorem civil_core (era yoe doy : Int) (hy0 : 0 ≤ yoe) (hy1 : yoe ≤ 399)
    (hd0 : 0 ≤ doy) (hd1 : doy ≤ 365)
    (hleap : doy = 365 → (yoe + 1) % 4 = 0 ∧ ((yoe + 1) % 100 ≠ 0 ∨ (yoe + 1) % 400 = 0))
    (y m d : Int)
    (hm : m = if (5 * doy + 2) / 153 < 10 then (5 * doy + 2) / 153 + 3
      else (5 * doy + 2) / 153 - 9)
    (hd : d = doy - (153 * ((5 * doy + 2) / 153) + 2) / 5 + 1)
    (hyr : y = if m ≤ 2 then yoe + era * 400 + 1 else yoe + era * 400) :
    1 ≤ m ∧ m ≤ 12 ∧ 1 ≤ d ∧ d ≤ daysIn m y ∧
      daysFromCivil y m d
        = era * 146097 + (yoe * 365 + yoe / 4 - yoe / 100 + doy) - 719468 := by
  have hmp : (5 * doy + 2) / 153 = 0 ∨ (5 * doy + 2) / 153 = 1 ∨ (5 * doy + 2) / 153 = 2 ∨
      (5 * doy + 2) / 153 = 3 ∨ (5 * doy + 2) / 153 = 4 ∨ (5 * doy + 2) / 153 = 5 ∨
      (5 * doy + 2) / 153 = 6 ∨ (5 * doy + 2) / 153 = 7 ∨ (5 * doy + 2) / 153 = 8 ∨
      (5 * doy + 2) / 153 = 9 ∨ (5 * doy + 2) / 153 = 10 ∨ (5 * doy + 2) / 153 = 11 := by
    omega
  have hround : ∀ y' : Int, y' = yoe + era * 400 →
      y' / 400 = era ∧ y' - y' / 400 * 400 = yoe := by
    intro y' hy'; omega
  rcases hmp with h | h | h | h | h | h | h | h | h | h | h | h <;>
    rw [h] at hm hd <;> norm_num at hm hd <;> subst hm <;> norm_num at hyr <;> subst hyr
  all_goals first
    | (refine ⟨by omega, by omega, by omega, ?_, ?_⟩
       · simp [daysIn]; omega
       · simp only [daysFromCivil]; norm_num; omega)
    | (refine ⟨by omega, by omega, by omega, ?_, ?_⟩
       · by_cases h365 : doy = 365
         · obtain ⟨h4, h100⟩ := hleap h365
           have hl : isLeap (yoe + era * 400 + 1) = true := by
             simp only [isLeap, Bool.and_eq_true, Bool.or_eq_true, beq_iff_eq, bne_iff_ne]
             omega
           simp only [daysIn, hl, if_true]
           omega
         · have hd28 : d ≤ 28 := by omega
           simp only [daysIn]
           split_ifs <;> omega
       · simp only [daysFromCivil]; norm_num; omega)

/-- The date `civilFromDays` computes is a date of the calendar, and
`daysFromCivil` takes it back to the day count. -/
theorem civil_spec (z : Int) :
    1 ≤ (civilFromDays z).2.1 ∧ (civilFromDays z).2.1 ≤ 12 ∧ 1 ≤ (civilFromDays z).2.2 ∧
      (civilFromDays z).2.2 ≤ daysIn (civilFromDays z).2.1 (civilFromDays z).1 ∧
      daysFromCivil (civilFromDays z).1 (civilFromDays z).2.1 (civilFromDays z).2.2 = z := by
  have hdoe0 : 0 ≤ z + 719468 - (z + 719468) / 146097 * 146097 := by omega
  have hdoe1 : z + 719468 - (z + 719468) / 146097 * 146097 ≤ 146096 := by omega
  obtain ⟨hy0, hy1, hd0, hd1, hleap⟩ := yoe_era _ hdoe0 hdoe1
  have h := civil_core ((z + 719468) / 146097) _ _ hy0 hy1 hd0 hd1 hleap _ _ _ rfl rfl rfl
  obtain ⟨h1, h2, h3, h4, h5⟩ := h
  refine ⟨h1, h2, h3, h4, ?_⟩
  simp only [civilFromDays]
  rw [h5]
  omega

/-- The year of a day count from 0000-01-01 to 9999-12-31, from the year of
the era and the day of that year. -/
theorem year_core (z era yoe doy : Int) (h0 : -719528 ≤ z) (h1 : z ≤ 2932896)
    (hz : z + 719468 = era * 146097 + (365 * yoe + yoe / 4 - yoe / 100 + doy))
    (hy0 : 0 ≤ yoe) (hy1 : yoe ≤ 399) (hd0 : 0 ≤ doy) (hd1 : doy ≤ 365) :
    0 ≤ (if (if (5 * doy + 2) / 153 < 10 then (5 * doy + 2) / 153 + 3
          else (5 * doy + 2) / 153 - 9) ≤ 2 then yoe + era * 400 + 1 else yoe + era * 400) ∧
    (if (if (5 * doy + 2) / 153 < 10 then (5 * doy + 2) / 153 + 3
          else (5 * doy + 2) / 153 - 9) ≤ 2 then yoe + era * 400 + 1 else yoe + era * 400)
      ≤ 9999 := by
  have hera : -1 ≤ era ∧ era ≤ 24 := by omega
  have hstart0 : 0 ≤ 365 * yoe + yoe / 4 - yoe / 100 := by omega
  have hstart1 : 365 * yoe + yoe / 4 - yoe / 100 ≤ 145731 := by omega
  by_cases hdoy : doy ≤ 305
  · have hmp : (5 * doy + 2) / 153 < 10 := by omega
    have hmp0 : 0 ≤ (5 * doy + 2) / 153 := by omega
    have hera0 : 0 ≤ era := by omega
    rw [if_pos hmp, if_neg (by omega)]
    omega
  · have hmp : ¬ (5 * doy + 2) / 153 < 10 := by omega
    have hmp1 : (5 * doy + 2) / 153 ≤ 11 := by omega
    rw [if_neg hmp, if_pos (by omega)]
    by_cases he : era = -1
    · have hyoe : yoe = 399 := by omega
      omega
    · by_cases he24 : era = 24
      · have hyoe : yoe ≤ 398 := by omega
        omega
      · omega

/-- Day counts from 0000-01-01 to 9999-12-31 have a year from 0 to 9999. -/
theorem civil_year_range (z : Int) (h0 : -719528 ≤ z) (h1 : z ≤ 2932896) :
    0 ≤ (civilFromDays z).1 ∧ (civilFromDays z).1 ≤ 9999 := by
  have hdoe0 : 0 ≤ z + 719468 - (z + 719468) / 146097 * 146097 := by omega
  have hdoe1 : z + 719468 - (z + 719468) / 146097 * 146097 ≤ 146096 := by omega
  obtain ⟨hy0, hy1, hd0, hd1, _⟩ := yoe_era _ hdoe0 hdoe1
  exact year_core z ((z + 719468) / 146097) _ _ h0 h1 (by omega) hy0 hy1 hd0 hd1

/-! ## Decimal fields -/

theorem digitChar_spec (n : Nat) :
    (digitChar n).isDigit = true ∧ (digitChar n).toNat - 48 = n % 10 := by
  have h : ∀ k, k < 10 →
      (Char.ofNat (48 + k)).isDigit = true ∧ (Char.ofNat (48 + k)).toNat - 48 = k := by
    decide
  exact h (n % 10) (Nat.mod_lt n (by decide))

theorem decimalDigits_lt (fuel n : Nat) (acc : List Char) (h : n < 10) :
    decimalDigits (fuel + 1) n acc = digitChar n :: acc := by
  simp [decimalDigits, h]

theorem decimalDigits_ge (fuel n : Nat) (acc : List Char) (h : 10 ≤ n) :
    decimalDigits (fuel + 1) n acc = decimalDigits fuel (n / 10) (digitChar n :: acc) := by
  simp [decimalDigits, Nat.not_lt.mpr h]

/-- A number below 100 is formatted in width 2 as its two digits. -/
theorem appendInt_two (x : Int) (h0 : 0 ≤ x) (h1 : x < 100) :
    appendInt x 2 = [digitChar (x.toNat / 10), digitChar x.toNat] := by
  obtain ⟨n, rfl⟩ := Int.eq_ofNat_of_zero_le h0
  have hn : n < 100 := by omega
  have hneg : ¬ ((n : Int) < 0) := by omega
  simp only [appendInt, Int.natAbs_ofNat, Int.toNat_ofNat, hneg, if_false, List.nil_append]
  by_cases h10 : n < 10
  · rw [decimalDigits_lt n n [] h10]
    have : n / 10 = 0 := by omega
    rw [this]
    rfl
  · obtain ⟨f, rfl⟩ : ∃ f, n = f + 1 := ⟨n - 1, by omega⟩
    rw [decimalDigits_ge _ _ _ (by omega), decimalDigits_lt _ _ _ (by omega)]
    rfl

/-- A number below 10000 is formatted in width 4 as its four digits. -/
theorem appendInt_four (x : Int) (h0 : 0 ≤ x) (h1 : x < 10000) :
    appendInt x 4 = [digitChar (x.toNat / 1000), digitChar (x.toNat / 100),
      digitChar (x.toNat / 10), digitChar x.toNat] := by
  obtain ⟨n, rfl⟩ := Int.eq_ofNat_of_zero_le h0
  have hn : n < 10000 := by omega
  have hneg : ¬ ((n : Int) < 0) := by omega
  simp only [appendInt, Int.natAbs_ofNat, Int.toNat_ofNat, hneg, if_false, List.nil_append]
  by_cases h10 : n < 10
  · rw [decimalDigits_lt n n [] h10]
    have e1 : n / 10 = 0 := by omega
    have e2 : n / 100 = 0 := by omega
    have e3 : n / 1000 = 0 := by omega
    rw [e1, e2, e3]
    rfl
  · by_cases h100 : n < 100
    · obtain ⟨f, rfl⟩ : ∃ f, n = f + 1 := ⟨n - 1, by omega⟩
      rw [decimalDigits_ge _ _ _ (by omega), decimalDigits_lt _ _ _ (by omega)]
      have e2 : (f + 1) / 100 = 0 := by omega
      have e3 : (f + 1) / 1000 = 0 := by omega
      rw [e2, e3]
      rfl
    · by_cases h1000 : n < 1000
      · obtain ⟨f, rfl⟩ : ∃ f, n = f + 2 := ⟨n - 2, by omega⟩
        rw [decimalDigits_ge (f + 2) _ _ (by omega), decimalDigits_ge (f + 1) _ _ (by omega),
          decimalDigits_lt _ _ _ (by omega)]
        have e3 : (f + 2) / 1000 = 0 := by omega
        have e4 : (f + 2) / 10 / 10 = (f + 2) / 100 := by omega
        rw [e3, e4]
        rfl
      · obtain ⟨f, rfl⟩ : ∃ f, n = f + 3 := ⟨n - 3, by omega⟩
        rw [decimalDigits_ge (f + 3) _ _ (by omega), decimalDigits_ge (f + 2) _ _ (by omega),
          decimalDigits_ge (f + 1) _ _ (by omega), decimalDigits_lt _ _ _ (by omega)]
        have e3 : (f + 3) / 10 / 10 / 10 = (f + 3) / 1000 := by omega
        have e4 : (f + 3) / 10 / 10 = (f + 3) / 100 := by omega
        rw [e3, e4]
        rfl

theorem parseUint_digits (s : List Char) (min max x : Int)
    (hall : s.all Char.isDigit = true)
    (hx : s.foldl (fun x c => x * 10 + ((c.toNat - 48 : Nat) : Int)) 0 = x)
    (hmin : min ≤ x) (hmax : x ≤ max) :
    parseUint s min max = some x := by
  unfold parseUint
  rw [if_pos hall]
  dsimp only
  rw [hx, if_neg (by omega)]

/-- Reading two digits gives back a number below 100, when it is in range. -/
theorem parseUint_two (n : Nat) (min max : Int) (hn : n < 100)
    (hmin : min ≤ n) (hmax : (n : Int) ≤ max) :
    parseUint [digitChar (n / 10), digitChar n] min max = some (n : Int) := by
  have h1 := digitChar_spec (n / 10)
  have h2 := digitChar_spec n
  apply parseUint_digits _ _ _ _ _ _ hmin hmax
  · simp only [List.all_cons, List.all_nil, h1.1, h2.1, Bool.and_self]
  · simp only [List.foldl_cons, List.foldl_nil, h1.2, h2.2]
    omega

/-- Reading four digits gives back a number below 10000, when it is in range. -/
theorem parseUint_four (n : Nat) (min max : Int) (hn : n < 10000)
    (hmin : min ≤ n) (hmax : (n : Int) ≤ max) :
    parseUint [digitChar (n / 1000), digitChar (n / 100), digitChar (n / 10), digitChar n]
      min max = some (n : Int) := by
  have h1 := digitChar_spec (n / 1000)
  have h2 := digitChar_spec (n / 100)
  have h3 := digitChar_spec (n / 10)
  have h4 := digitChar_spec n
  apply parseUint_digits _ _ _ _ _ _ hmin hmax
  · simp only [List.all_cons, List.all_nil, h1.1, h2.1, h3.1, h4.1, Bool.and_self]
  · simp only [List.foldl_cons, List.foldl_nil, h1.2, h2.2, h3.2, h4.2]
    omega

/-! ## Parsing what `Format` wrote -/

theorem daysIn_le (m y : Int) : daysIn m y ≤ 31 := by
  unfold daysIn
  split_ifs <;> omega

/-- The zone suffix, read from its characters. -/
theorem parseZone_chars (sign h1 h0 m1 m0 : Char) (hr mm : Int)
    (hsign : sign = '-' ∨ sign = '+')
    (hh : parseUint [h1, h0] 0 23 = some hr) (hm : parseUint [m1, m0] 0 59 = some mm) :
    parseFraction [sign, h1, h0, ':', m1, m0] = (0, [sign, h1, h0, ':', m1, m0]) ∧
    parseZone [sign, h1, h0, ':', m1, m0]
      = some (if sign = '-' then -((hr * 60 + mm) * 60) else (hr * 60 + mm) * 60) := by
  rcases hsign with rfl | rfl
  · constructor
    · rfl
    · simp [parseZone, slice, hh, hm]
  · constructor
    · rfl
    · simp [parseZone, slice, hh, hm]

/-- The string of six two-digit fields, a four-digit year and a zone suffix,
read field by field. -/
theorem parseRFC3339_chars (y3 y2 y1 y0 m1 m0 d1 d0 h1 h0 i1 i0 s1 s0 : Char)
    (zone : List Char) (year month day hour min sec off : Int)
    (hy : parseUint [y3, y2, y1, y0] 0 9999 = some year)
    (hm : parseUint [m1, m0] 1 12 = some month)
    (hd : parseUint [d1, d0] 1 (daysIn month year) = some day)
    (hh : parseUint [h1, h0] 0 23 = some hour)
    (hi : parseUint [i1, i0] 0 59 = some min)
    (hs : parseUint [s1, s0] 0 59 = some sec)
    (hf : parseFraction zone = (0, zone)) (hz : parseZone zone = some off) :
    parseRFC3339 (String.mk (y3 :: y2 :: y1 :: y0 :: '-' :: m1 :: m0 :: '-' :: d1 :: d0 :: 'T'
      :: h1 :: h0 :: ':' :: i1 :: i0 :: ':' :: s1 :: s0 :: zone))
      = some ⟨daysFromCivil year month day * 86400 + hour * 3600 + min * 60 + sec - off, 0,
          Location.fixed off⟩ := by
  simp [parseRFC3339, slice, hy, hm, hd, hh, hi, hs, hf, hz]

theorem parseUint_appendInt_two (x min max : Int) (h0 : 0 ≤ x) (h1 : x < 100)
    (hmin : min ≤ x) (hmax : x ≤ max) :
    ∃ a b, appendInt x 2 = [a, b] ∧ parseUint [a, b] min max = some x := by
  refine ⟨_, _, appendInt_two x h0 h1, ?_⟩
  have h := parseUint_two x.toNat min max (by omega) (by omega) (by omega)
  rw [h, Int.toNat_of_nonneg h0]

theorem parseUint_appendInt_four (x min max : Int) (h0 : 0 ≤ x) (h1 : x < 10000)
    (hmin : min ≤ x) (hmax : x ≤ max) :
    ∃ a b c d, appendInt x 4 = [a, b, c, d] ∧ parseUint [a, b, c, d] min max = some x := by
  refine ⟨_, _, _, _, appendInt_four x h0 h1, ?_⟩
  have h := parseUint_four x.toNat min max (by omega) (by omega) (by omega)
  rw [h, Int.toNat_of_nonneg h0]

/-- The zone suffix of an offset of whole minutes within a day reads back as
that offset. -/
theorem parseZone_formatZone (off : Int) (h60 : off % 60 = 0) (hlo : -86400 < off)
    (hhi : off < 86400) :
    parseFraction (formatZone off) = (0, formatZone off) ∧
      parseZone (formatZone off) = some off := by
  by_cases h0 : off = 0
  · subst h0
    exact ⟨rfl, rfl⟩
  · have ht : Int.tdiv off 60 = off / 60 :=
      Int.tdiv_eq_ediv_of_dvd (Int.dvd_of_emod_eq_zero h60)
    unfold formatZone
    rw [if_neg h0]
    dsimp only
    rw [ht]
    by_cases hneg : off / 60 < 0
    · rw [if_pos hneg, if_pos hneg]
      obtain ⟨a, b, hab, hp1⟩ :=
        parseUint_appendInt_two (-(off / 60) / 60) 0 23 (by omega) (by omega) (by omega)
          (by omega)
      obtain ⟨c, d, hcd, hp2⟩ :=
        parseUint_appendInt_two (-(off / 60) % 60) 0 59 (by omega) (by omega) (by omega)
          (by omega)
      rw [hab, hcd]
      have h := parseZone_chars '-' a b c d _ _ (Or.inl rfl) hp1 hp2
      rw [if_pos rfl] at h
      refine ⟨h.1, ?_⟩
      have e : -((-(off / 60) / 60 * 60 + -(off / 60) % 60) * 60) = off := by omega
      rw [← e]
      exact h.2
    · rw [if_neg hneg, if_neg hneg]
      obtain ⟨a, b, hab, hp1⟩ :=
        parseUint_appendInt_two (off / 60 / 60) 0 23 (by omega) (by omega) (by omega)
          (by omega)
      obtain ⟨c, d, hcd, hp2⟩ :=
        parseUint_appendInt_two (off / 60 % 60) 0 59 (by omega) (by omega) (by omega)
          (by omega)
      rw [hab, hcd]
      have h := parseZone_chars '+' a b c d _ _ (Or.inr rfl) hp1 hp2
      rw [if_neg (by decide)] at h
      refine ⟨h.1, ?_⟩
      have e : (off / 60 / 60 * 60 + off / 60 % 60) * 60 = off := by omega
      rw [← e]
      exact h.2

/-- Parsing the RFC 3339 form of an instant gives an instant with the same Unix
seconds, when the form is exact: the offset of the location is a whole number
of minutes within a day and the local year has four digits. -/
theorem parseRFC3339_Format (t : Time) (h : t.rfc3339Exact) :
    ∃ t', parseRFC3339 t.Format = some t' ∧ t'.Unix = t.Unix := by
  obtain ⟨h60, hlo, hhi, hmin, hmax⟩ := h
  have hdays0 : -719528 ≤ (t.sec + t.loc.offsetAt t.sec) / 86400 := by omega
  have hdays1 : (t.sec + t.loc.offsetAt t.sec) / 86400 ≤ 2932896 := by omega
  obtain ⟨hm0, hm1, hd0, hd1, hback⟩ := civil_spec ((t.sec + t.loc.offsetAt t.sec) / 86400)
  obtain ⟨hy0, hy1⟩ := civil_year_range _ hdays0 hdays1
  have hd31 := daysIn_le (civilFromDays ((t.sec + t.loc.offsetAt t.sec) / 86400)).2.1
    (civilFromDays ((t.sec + t.loc.offsetAt t.sec) / 86400)).1
  rcases hc : civilFromDays ((t.sec + t.loc.offsetAt t.sec) / 86400) with ⟨y, m, d⟩
  rw [hc] at hm0 hm1 hd0 hd1 hback hy0 hy1 hd31
  simp only at hm0 hm1 hd0 hd1 hback hy0 hy1 hd31
  obtain ⟨y3, y2, y1, y0, hyf, hyp⟩ :=
    parseUint_appendInt_four y 0 9999 hy0 (by omega) hy0 hy1
  obtain ⟨m1, m0, hmf, hmp⟩ := parseUint_appendInt_two m 1 12 (by omega) (by omega) hm0 hm1
  obtain ⟨d1, d0, hdf, hdp⟩ :=
    parseUint_appendInt_two d 1 (daysIn m y) (by omega) (by omega) hd0 hd1
  obtain ⟨c1, c0, hhf, hhp⟩ :=
    parseUint_appendInt_two ((t.sec + t.loc.offsetAt t.sec) % 86400 / 3600) 0 23
      (by omega) (by omega) (by omega) (by omega)
  obtain ⟨i1, i0, hif, hip⟩ :=
    parseUint_appendInt_two ((t.sec + t.loc.offsetAt t.sec) % 86400 % 3600 / 60) 0 59
      (by omega) (by omega) (by omega) (by omega)
  obtain ⟨s1, s0, hsf, hsp⟩ :=
    parseUint_appendInt_two ((t.sec + t.loc.offsetAt t.sec) % 86400 % 60) 0 59
      (by omega) (by omega) (by omega) (by omega)
  obtain ⟨hzf, hzp⟩ := parseZone_formatZone _ h60 hlo hhi
  have hfmt : t.Format = String.mk (y3 :: y2 :: y1 :: y0 :: '-' :: m1 :: m0 :: '-' :: d1 :: d0
      :: 'T' :: c1 :: c0 :: ':' :: i1 :: i0 :: ':' :: s1 :: s0
      :: formatZone (t.loc.offsetAt t.sec)) := by
    simp only [Time.Format, hc, hyf, hmf, hdf, hhf, hif, hsf, List.cons_append,
      List.nil_append]
  rw [hfmt, parseRFC3339_chars _ _ _ _ _ _ _ _ _ _ _ _ _ _ _ _ _ _ _ _ _ _
    hyp hmp hdp hhp hip hsp hzf hzp]
  refine ⟨_, rfl, ?_⟩
  simp only [Time.Unix]
  rw [hback]
  omega

/-! ## `setTime` on the four statuses -/

theorem setTime_Pending (r : Repo) (t : Time) :
    setTime r Pending t =
      some { r with NextScheduleISO8601 := t.Format, NextScheduleTimestamp := t.Unix } := rfl

theorem setTime_Syncing (r : Repo) (t : Time) :
    setTime r Syncing t =
      some { r with LastStartedISO8601 := t.Format, LastStartedTimestamp := t.Unix } := rfl

theorem setTime_Success (r : Repo) (t : Time) :
    setTime r Success t =
      some { r with LastUpdateISO8601 := t.Format, LastUpdateTimestamp := t.Unix,
                    LastEndedISO8601 := t.Format, LastEndedTimestamp := t.Unix } := rfl

theorem setTime_Failed (r : Repo) (t : Time) :
    setTime r Failed t =
      some { r with LastEndedISO8601 := t.Format, LastEndedTimestamp := t.Unix } := rfl

/-! ## The writes to the matched record -/

theorem update_Syncing (B : Int → String) (size sched : Int) (now : Time) (r : Repo) :
    run.update B Syncing size sched now r = some
      { r with
        Status := Syncing
        SizeBytes := if size = 0 then r.SizeBytes else size
        SizeHumanReadable := if size = 0 then r.SizeHumanReadable else B size
        NextScheduleISO8601 :=
          if sched = 0 then r.NextScheduleISO8601 else (now.Add sched).Format
        NextScheduleTimestamp :=
          if sched = 0 then r.NextScheduleTimestamp else (now.Add sched).Unix
        LastStartedISO8601 := now.Format
        LastStartedTimestamp := now.Unix } := by
  by_cases hz : sched = 0 <;> by_cases hsz : size = 0 <;>
    simp [run.update, hz, hsz, setTime_Pending, setTime_Syncing]

theorem update_Success (B : Int → String) (size sched : Int) (now : Time) (r : Repo) :
    run.update B Success size sched now r = some
      { r with
        Status := Success
        SizeBytes := if size = 0 then r.SizeBytes else size
        SizeHumanReadable := if size = 0 then r.SizeHumanReadable else B size
        NextScheduleISO8601 :=
          if sched = 0 then r.NextScheduleISO8601 else (now.Add sched).Format
        NextScheduleTimestamp :=
          if sched = 0 then r.NextScheduleTimestamp else (now.Add sched).Unix
        LastUpdateISO8601 := now.Format
        LastUpdateTimestamp := now.Unix
        LastEndedISO8601 := now.Format
        LastEndedTimestamp := now.Unix } := by
  by_cases hz : sched = 0 <;> by_cases hsz : size = 0 <;>
    simp [run.update, hz, hsz, setTime_Pending, setTime_Success]

theorem update_Failed (B : Int → String) (size sched : Int) (now : Time) (r : Repo) :
    run.update B Failed size sched now r = some
      { r with
        Status := Failed
        SizeBytes := if size = 0 then r.SizeBytes else size
        SizeHumanReadable := if size = 0 then r.SizeHumanReadable else B size
        NextScheduleISO8601 :=
          if sched = 0 then r.NextScheduleISO8601 else (now.Add sched).Format
        NextScheduleTimestamp :=
          if sched = 0 then r.NextScheduleTimestamp else (now.Add sched).Unix
        LastEndedISO8601 := now.Format
        LastEndedTimestamp := now.Unix } := by
  by_cases hz : sched = 0 <;> by_cases hsz : size = 0 <;>
    simp [run.update, hz, hsz, setTime_Pending, setTime_Failed]

/-- With a valid status the writes of lines 89-99 do not panic. -/
theorem update_isSome (B : Int → String) (s : Status) (size sched : Int) (now : Time)
    (r : Repo) (hs : validStatus s) : ∃ r', run.update B s size sched now r = some r' := by
  rcases hs with h | h | h <;> subst h
  · exact ⟨_, update_Syncing B size sched now r⟩
  · exact ⟨_, update_Success B size sched now r⟩
  · exact ⟨_, update_Failed B size sched now r⟩

/-- The writes keep the name, the master flag and the upstream. -/
theorem update_frame (B : Int → String) (s : Status) (size sched : Int) (now : Time)
    (r r' : Repo) (hs : validStatus s) (h : run.update B s size sched now r = some r') :
    r'.Name = r.Name ∧ r'.IsMaster = r.IsMaster ∧ r'.Upstream = r.Upstream ∧ r'.Status = s := by
  rcases hs with h1 | h1 | h1 <;> subst h1
  · rw [update_Syncing] at h; cases h; exact ⟨rfl, rfl, rfl, rfl⟩
  · rw [update_Success] at h; cases h; exact ⟨rfl, rfl, rfl, rfl⟩
  · rw [update_Failed] at h; cases h; exact ⟨rfl, rfl, rfl, rfl⟩

/-! ## The loop -/

/-- The loop stops at the first record named `R`, writes it in place and drops
the last element of the list unless the match is the last element. -/
theorem loop_first_match (B : Int → String) (s : Status) (R : String) (size sched : Int)
    (now : Time) (full : List Repo) (r r' : Repo) (b : List Repo)
    (hr : r.Name = R) (hu : run.update B s size sched now r = some r') :
    ∀ (a : List Repo) (i : Nat), (∀ x ∈ a, x.Name ≠ R) →
      run.loop B s R size sched now full (a ++ r :: b) i =
        .encoded (if i + a.length + 1 < full.length
          then (full.set (i + a.length) r').take (full.length - 1)
          else full.set (i + a.length) r') := by
  intro a
  induction a with
  | nil =>
    intro i _
    simp [run.loop, hr, hu]
  | cons x xs ih =>
    intro i h
    have hx : x.Name ≠ R := h x (List.mem_cons_self _ _)
    have hxs : ∀ y ∈ xs, y.Name ≠ R := fun y hy => h y (List.mem_cons_of_mem _ hy)
    have e : i + 1 + xs.length = i + (xs.length + 1) := by omega
    have step : run.loop B s R size sched now full (x :: (xs ++ r :: b)) i
        = run.loop B s R size sched now full (xs ++ r :: b) (i + 1) := by
      simp [run.loop, hx]
    rw [List.cons_append, step, ih (i + 1) hxs, e, List.length_cons]

/-- A list with a record named `R` splits at the first such record. -/
theorem split_first (R : String) :
    ∀ l : List Repo, (∃ x ∈ l, x.Name = R) →
      ∃ a r b, l = a ++ r :: b ∧ (∀ x ∈ a, x.Name ≠ R) ∧ r.Name = R := by
  intro l
  induction l with
  | nil => rintro ⟨x, hx, _⟩; cases hx
  | cons y ys ih =>
    intro h
    by_cases hy : y.Name = R
    · exact ⟨[], y, ys, rfl, by simp, hy⟩
    · have : ∃ x ∈ ys, x.Name = R := by
        obtain ⟨x, hx, hxR⟩ := h
        rcases List.mem_cons.mp hx with rfl | hx'
        · exact absurd hxR hy
        · exact ⟨x, hx', hxR⟩
      obtain ⟨a, r, b, hl, ha, hr⟩ := ih this
      refine ⟨y :: a, r, b, by simp [hl], ?_, hr⟩
      intro x hx
      rcases List.mem_cons.mp hx with rfl | hx'
      · exact hy
      · exact ha x hx'

/-- The upsert when no record is named `R`: the updated placeholder is appended. -/
theorem upsert_absent (B : Int → String) (s : Status) (R : String) (size sched : Int)
    (now : Time) (l : List Repo) (r' : Repo) (habs : ∀ x ∈ l, x.Name ≠ R)
    (hu : run.update B s size sched now { Name := R, IsMaster := true } = some r') :
    run.upsert B s R size sched now l = .encoded (l ++ [r']) := by
  unfold run.upsert
  simp only []
  rw [loop_first_match B s R size sched now _ _ r' [] rfl hu l 0 habs]
  simp

/-- The upsert when `r` is the first record named `R`: it is updated in place
and the placeholder is dropped again. -/
theorem upsert_present (B : Int → String) (s : Status) (R : String) (size sched : Int)
    (now : Time) (a b : List Repo) (r r' : Repo) (ha : ∀ x ∈ a, x.Name ≠ R)
    (hr : r.Name = R) (hu : run.update B s size sched now r = some r') :
    run.upsert B s R size sched now (a ++ r :: b) = .encoded (a ++ r' :: b) := by
  unfold run.upsert
  simp only []
  have e : a ++ r :: b ++ [{ Name := R, IsMaster := true }]
      = a ++ r :: (b ++ [{ Name := R, IsMaster := true }]) := by simp
  rw [e, loop_first_match B s R size sched now _ r r' _ hr hu a 0 ha]
  simp [List.take_append_eq_append_take]

/-- The names of the output are the names of the input, in order, followed by
the target name when no input record has it. -/
theorem upsert_names (B : Int → String) (s : Status) (R : String) (size sched : Int)
    (now : Time) (l : List Repo) (hs : validStatus s) :
    ∃ out, run.upsert B s R size sched now l = .encoded out ∧
      ((∃ x ∈ l, x.Name = R) → out.map Repo.Name = l.map Repo.Name) ∧
      ((∀ x ∈ l, x.Name ≠ R) → out.map Repo.Name = l.map Repo.Name ++ [R]) := by
  by_cases h : ∃ x ∈ l, x.Name = R
  · obtain ⟨a, r, b, hl, ha, hr⟩ := split_first R l h
    obtain ⟨r', hu⟩ := update_isSome B s size sched now r hs
    have hn := (update_frame B s size sched now r r' hs hu).1
    subst hl
    refine ⟨_, upsert_present B s R size sched now a b r r' ha hr hu, ?_, ?_⟩
    · intro _; simp [hn]
    · intro habs; exact absurd hr (habs r (by simp))
  · have habs : ∀ x ∈ l, x.Name ≠ R := fun x hx hxR => h ⟨x, hx, hxR⟩
    obtain ⟨r', hu⟩ := update_isSome B s size sched now { Name := R, IsMaster := true } hs
    have hn := (update_frame B s size sched now _ r' hs hu).1
    refine ⟨_, upsert_absent B s R size sched now l r' habs hu, ?_, ?_⟩
    · intro hex; exact absurd hex h
    · intro _; simp [hn]

/-- The size pair after the writes of lines 89-99: the argument and its
byte-unit form when the argument is non-zero, the old pair otherwise. -/
theorem update_size (B : Int → String) (s : Status) (size sched : Int) (now : Time)
    (r r' : Repo) (hs : validStatus s) (h : run.update B s size sched now r = some r') :
    r'.SizeBytes = (if size = 0 then r.SizeBytes else size) ∧
      r'.SizeHumanReadable = (if size = 0 then r.SizeHumanReadable else B size) := by
  rcases hs with h1 | h1 | h1 <;> subst h1
  · rw [update_Syncing] at h; cases h; exact ⟨rfl, rfl⟩
  · rw [update_Success] at h; cases h; exact ⟨rfl, rfl⟩
  · rw [update_Failed] at h; cases h; exact ⟨rfl, rfl⟩

/-- With a valid status the upsert always emits a collection. -/
theorem upsert_encoded (B : Int → String) (s : Status) (R : String) (size sched : Int)
    (now : Time) (l : List Repo) (hs : validStatus s) :
    ∃ out, run.upsert B s R size sched now l = .encoded out := by
  obtain ⟨out, h, _⟩ := upsert_names B s R size sched now l hs
  exact ⟨out, h⟩

/-! ## The two-branch upsert -/

theorem ruleTable_Pending : spec.ruleTable Pending = [.NextSchedule] := rfl

theorem ruleTable_Syncing : spec.ruleTable Syncing = [.LastStarted] := rfl

theorem ruleTable_Success : spec.ruleTable Success = [.LastUpdate, .LastEnded] := rfl

theorem ruleTable_Failed : spec.ruleTable Failed = [.LastEnded] := rfl

/-- The writes of lines 89-99, through the reflective `setTime`, give the
transitioned version of the record that the rule table describes. -/
theorem update_eq_transition (B : Int → String) (s : Status) (size sched : Int)
    (now : Time) (r : Repo) (hs : validStatus s) :
    run.update B s size sched now r = some (spec.transition B s size sched now r) := by
  rcases hs with h | h | h <;> subst h
  · rw [update_Syncing]
    by_cases hz : sched = 0 <;> by_cases hsz : size = 0 <;>
      simp [spec.transition, ruleTable_Pending, ruleTable_Syncing, spec.stamp, hz, hsz]
  · rw [update_Success]
    by_cases hz : sched = 0 <;> by_cases hsz : size = 0 <;>
      simp [spec.transition, ruleTable_Pending, ruleTable_Success, spec.stamp, hz, hsz]
  · rw [update_Failed]
    by_cases hz : sched = 0 <;> by_cases hsz : size = 0 <;>
      simp [spec.transition, ruleTable_Pending, ruleTable_Failed, spec.stamp, hz, hsz]

/-! ## The loop over pointers -/

/-- On a list without nil pointers the loop over pointers emits what the loop
over records emits. -/
theorem loopPtr_map (B : Int → String) (s : Status) (R : String) (size sched : Int)
    (now : Time) (full : List Repo) :
    ∀ (rest : List Repo) (i : Nat) (out : List Repo),
      run.loop B s R size sched now full rest i = .encoded out →
      run.loopPtr B s R size sched now (full.map some) (rest.map some) i
        = .encoded (out.map some) := by
  intro rest
  induction rest with
  | nil => intro i out h; simp [run.loop] at h
  | cons x xs ih =>
    intro i out h
    by_cases hx : x.Name = R
    · cases hu : run.update B s size sched now x with
      | none => simp [run.loop, hx, hu] at h
      | some r' =>
        simp only [run.loop, hx, bne_self_eq_false, Bool.false_eq_true, if_false, hu] at h
        simp only [List.map_cons, run.loopPtr, hx, bne_self_eq_false, Bool.false_eq_true,
          if_false, hu]
        rw [← Outcome.encoded.inj h]
        simp only [List.length_set, List.length_map]
        split_ifs <;> simp [List.map_set, List.map_take]
    · have hne : (x.Name != R) = true := by simpa using hx
      simp only [run.loop, hne, if_true] at h
      simp only [List.map_cons, run.loopPtr, hne, if_true]
      exact ih (i + 1) out h

/-- The loop over pointers never falls through to `return nil` when a record
named `R` is still ahead: it emits or panics. -/
theorem loopPtr_ne_returnedNil (B : Int → String) (s : Status) (R : String)
    (size sched : Int) (now : Time) (full : List (Option Repo)) :
    ∀ (rest : List (Option Repo)) (i : Nat), (∃ r, some r ∈ rest ∧ r.Name = R) →
      run.loopPtr B s R size sched now full rest i ≠ .returnedNil := by
  intro rest
  induction rest with
  | nil => rintro i ⟨r, hr, _⟩; cases hr
  | cons x xs ih =>
    rintro i ⟨r, hr, hrR⟩
    cases x with
    | none => simp [run.loopPtr]
    | some y =>
      by_cases hy : y.Name = R
      · cases hu : run.update B s size sched now y with
        | none => simp [run.loopPtr, hy, hu]
        | some r' => simp [run.loopPtr, hy, hu]
      · have hne : (y.Name != R) = true := by simpa using hy
        simp only [run.loopPtr, hne, if_true]
        apply ih (i + 1)
        rcases List.mem_cons.mp hr with h | h
        · exact absurd hrR (by rw [Option.some.inj h]; exact hy)
        · exact ⟨r, h, hrR⟩

/-! ## The upsert on pointers -/

/-- The loop over pointers stops at the first record named `R`, when only
records with other names stand before it, writes it in place and drops the
last element of the list unless the match is the last element. -/
theorem loopPtr_first_match (B : Int → String) (s : Status) (R : String)
    (size sched : Int) (now : Time) (full : List (Option Repo)) (r r' : Repo)
    (b : List (Option Repo)) (hr : r.Name = R)
    (hu : run.update B s size sched now r = some r') :
    ∀ (a : List (Option Repo)) (i : Nat),
      (∀ x ∈ a, x ≠ none ∧ x.map Repo.Name ≠ some R) →
      run.loopPtr B s R size sched now full (a ++ some r :: b) i =
        .encoded (if i + a.length + 1 < full.length
          then (full.set (i + a.length) (some r')).take (full.length - 1)
          else full.set (i + a.length) (some r')) := by
  intro a
  induction a with
  | nil =>
    intro i _
    simp [run.loopPtr, hr, hu]
  | cons x xs ih =>
    intro i h
    have hxs : ∀ y ∈ xs, y ≠ none ∧ y.map Repo.Name ≠ some R :=
      fun y hy => h y (List.mem_cons_of_mem _ hy)
    have e : i + 1 + xs.length = i + (xs.length + 1) := by omega
    cases x with
    | none => exact absurd rfl (h none (List.mem_cons_self _ _)).1
    | some y =>
      have hy : y.Name ≠ R := by
        have := (h (some y) (List.mem_cons_self _ _)).2
        simpa using this
      have step : run.loopPtr B s R size sched now full (some y :: (xs ++ some r :: b)) i
          = run.loopPtr B s R size sched now full (xs ++ some r :: b) (i + 1) := by
        simp [run.loopPtr, hy]
      rw [List.cons_append, step, ih (i + 1) hxs, e, List.length_cons]

/-- The loop over pointers panics at a nil pointer when only records with other
names stand before it. -/
theorem loopPtr_nil_first (B : Int → String) (s : Status) (R : String)
    (size sched : Int) (now : Time) (full b : List (Option Repo)) :
    ∀ (a : List (Option Repo)) (i : Nat),
      (∀ x ∈ a, x ≠ none ∧ x.map Repo.Name ≠ some R) →
      run.loopPtr B s R size sched now full (a ++ none :: b) i = .panicked := by
  intro a
  induction a with
  | nil => intro i _; simp [run.loopPtr]
  | cons x xs ih =>
    intro i h
    have hxs : ∀ y ∈ xs, y ≠ none ∧ y.map Repo.Name ≠ some R :=
      fun y hy => h y (List.mem_cons_of_mem _ hy)
    cases x with
    | none => exact absurd rfl (h none (List.mem_cons_self _ _)).1
    | some y =>
      have hy : y.Name ≠ R := by
        have := (h (some y) (List.mem_cons_self _ _)).2
        simpa using this
      have step : run.loopPtr B s R size sched now full (some y :: (xs ++ none :: b)) i
          = run.loopPtr B s R size sched now full (xs ++ none :: b) (i + 1) := by
        simp [run.loopPtr, hy]
      rw [List.cons_append, step, ih (i + 1) hxs]

/-- The upsert on a collection of records none of which is named `R`: the
updated placeholder is appended. -/
theorem upsertPtr_absent (B : Int → String) (s : Status) (R : String) (size sched : Int)
    (now : Time) (lp : List (Option Repo)) (r' : Repo)
    (habs : ∀ x ∈ lp, x ≠ none ∧ x.map Repo.Name ≠ some R)
    (hu : run.update B s size sched now { Name := R, IsMaster := true } = some r') :
    run.upsertPtr B s R size sched now lp = .encoded (lp ++ [some r']) := by
  unfold run.upsertPtr
  simp only []
  rw [loopPtr_first_match B s R size sched now _ _ r' [] rfl hu lp 0 habs]
  simp

/-- The upsert when `r` is the first record named `R` and no nil pointer stands
before it: it is updated in place and the placeholder is dropped again. -/
theorem upsertPtr_present (B : Int → String) (s : Status) (R : String) (size sched : Int)
    (now : Time) (a b : List (Option Repo)) (r r' : Repo)
    (ha : ∀ x ∈ a, x ≠ none ∧ x.map Repo.Name ≠ some R)
    (hr : r.Name = R) (hu : run.update B s size sched now r = some r') :
    run.upsertPtr B s R size sched now (a ++ some r :: b) = .encoded (a ++ some r' :: b) := by
  unfold run.upsertPtr
  simp only []
  have e : a ++ some r :: b ++ [some ({ Name := R, IsMaster := true } : Repo)]
      = a ++ some r :: (b ++ [some ({ Name := R, IsMaster := true } : Repo)]) := by simp
  rw [e, loopPtr_first_match B s R size sched now _ r r' _ hr hu a 0 ha]
  simp [List.take_append_eq_append_take]

/-- The upsert panics when a nil pointer stands before every record named `R`. -/
theorem upsertPtr_nil (B : Int → String) (s : Status) (R : String) (size sched : Int)
    (now : Time) (a b : List (Option Repo))
    (ha : ∀ x ∈ a, x ≠ none ∧ x.map Repo.Name ≠ some R) :
    run.upsertPtr B s R size sched now (a ++ none :: b) = .panicked := by
  unfold run.upsertPtr
  simp only []
  have e : a ++ none :: b ++ [some ({ Name := R, IsMaster := true } : Repo)]
      = a ++ none :: (b ++ [some ({ Name := R, IsMaster := true } : Repo)]) := by simp
  rw [e, loopPtr_nil_first B s R size sched now _ _ a 0 ha]

/-- A collection in which the match is reachable is a run of records with
other names followed by a record named `R`, or consists of records with other
names only. -/
theorem reachable_split (R : String) :
    ∀ lp : List (Option Repo), matchReachable R lp = true →
      (∃ a r b, lp = a ++ some r :: b ∧
        (∀ x ∈ a, x ≠ none ∧ x.map Repo.Name ≠ some R) ∧ r.Name = R) ∨
      (∀ x ∈ lp, x ≠ none ∧ x.map Repo.Name ≠ some R) := by
  intro lp
  induction lp with
  | nil => intro _; exact Or.inr (by simp)
  | cons x xs ih =>
    intro h
    cases x with
    | none => simp [matchReachable] at h
    | some y =>
      by_cases hy : y.Name = R
      · exact Or.inl ⟨[], y, xs, rfl, by simp, hy⟩
      · have hxs : matchReachable R xs = true := by
          simpa [matchReachable, hy] using h
        rcases ih hxs with ⟨a, r, b, hl, ha, hr⟩ | hall
        · refine Or.inl ⟨some y :: a, r, b, by simp [hl], ?_, hr⟩
          intro x hx
          rcases List.mem_cons.mp hx with rfl | hx'
          · exact ⟨by simp, by simpa using hy⟩
          · exact ha x hx'
        · refine Or.inr ?_
          intro x hx
          rcases List.mem_cons.mp hx with rfl | hx'
          · exact ⟨by simp, by simpa using hy⟩
          · exact hall x hx'

/-- A collection in which the match is not reachable has a nil pointer after
records with other names only. -/
theorem unreachable_split (R : String) :
    ∀ lp : List (Option Repo), matchReachable R lp = false →
      ∃ a b, lp = a ++ none :: b ∧ (∀ x ∈ a, x ≠ none ∧ x.map Repo.Name ≠ some R) := by
  intro lp
  induction lp with
  | nil => intro h; simp [matchReachable] at h
  | cons x xs ih =>
    intro h
    cases x with
    | none => exact ⟨[], xs, rfl, by simp⟩
    | some y =>
      by_cases hy : y.Name = R
      · simp [matchReachable, hy] at h
      · have hxs : matchReachable R xs = false := by
          simpa [matchReachable, hy] using h
        obtain ⟨a, b, hl, ha⟩ := ih hxs
        refine ⟨some y :: a, b, by simp [hl], ?_⟩
        intro x hx
        rcases List.mem_cons.mp hx with rfl | hx'
        · exact ⟨by simp, by simpa using hy⟩
        · exact ha x hx'

/-- With a valid status the upsert emits a collection exactly when the match
is reachable, and panics otherwise. -/
theorem upsertPtr_total (B : Int → String) (s : Status) (R : String) (size sched : Int)
    (now : Time) (lp : List (Option Repo)) (hs : validStatus s) :
    (matchReachable R lp = true → ∃ out, run.upsertPtr B s R size sched now lp = .encoded out) ∧
    (matchReachable R lp = false → run.upsertPtr B s R size sched now lp = .panicked) := by
  constructor
  · intro h
    rcases reachable_split R lp h with ⟨a, r, b, hl, ha, hr⟩ | hall
    · obtain ⟨r', hu⟩ := update_isSome B s size sched now r hs
      subst hl
      exact ⟨_, upsertPtr_present B s R size sched now a b r r' ha hr hu⟩
    · obtain ⟨r', hu⟩ := update_isSome B s size sched now { Name := R, IsMaster := true } hs
      exact ⟨_, upsertPtr_absent B s R size sched now lp r' hall hu⟩
  · intro h
    obtain ⟨a, b, hl, ha⟩ := unreachable_split R lp h
    subst hl
    exact upsertPtr_nil B s R size sched now a b ha

/-- The record the loop matches is the first record named `R` of the list with
the placeholder appended, at index `i`, when only records with other names
stand before it: it is rewritten at index `i`, in a list of the input's length
when `i` is an index of the input, and at the end of the input otherwise. -/
theorem upsertPtr_at (B : Int → String) (s : Status) (R : String) (size sched : Int)
    (now : Time) (lp : List (Option Repo)) (i : Nat) (before : Repo) (hs : validStatus s)
    (hi : (lp ++ [some ({ Name := R, IsMaster := true } : Repo)])[i]? = some (some before))
    (hR : before.Name = R)
    (hfirst : ∀ x ∈ (lp ++ [some ({ Name := R, IsMaster := true } : Repo)]).take i,
      x ≠ none ∧ x.map Repo.Name ≠ some R) :
    ∃ out after, run.update B s size sched now before = some after ∧
      run.upsertPtr B s R size sched now lp = .encoded out ∧ out[i]? = some (some after) ∧
      ((i < lp.length ∧ lp[i]? = some (some before) ∧ out = lp.set i (some after)) ∨
        (i = lp.length ∧ before = ({ Name := R, IsMaster := true } : Repo) ∧
          out = lp ++ [some after])) := by
  obtain ⟨after, hu⟩ := update_isSome B s size sched now before hs
  have hlt : i < lp.length + 1 := by
    have := (List.getElem?_eq_some.mp hi).1
    simpa using this
  by_cases hil : i < lp.length
  · have hb : lp[i]? = some (some before) := by
      rw [List.getElem?_append_left hil] at hi; exact hi
    have hbi : lp[i] = some before := by
      rw [List.getElem?_eq_getElem hil] at hb; exact Option.some.inj hb
    have hsplit : lp = lp.take i ++ some before :: lp.drop (i + 1) := by
      rw [← hbi]; simp
    have htake : ∀ x ∈ lp.take i, x ≠ none ∧ x.map Repo.Name ≠ some R := by
      intro x hx
      apply hfirst
      rw [List.take_append_of_le_length (le_of_lt hil)]
      exact hx
    have hout := upsertPtr_present B s R size sched now (lp.take i) (lp.drop (i + 1)) before
      after htake hR hu
    rw [← hsplit] at hout
    have hset : lp.set i (some after) = lp.take i ++ some after :: lp.drop (i + 1) := by
      rw [List.set_eq_take_append_cons_drop]; simp [hil]
    refine ⟨lp.set i (some after), after, hu, ?_, ?_, Or.inl ⟨hil, hb, rfl⟩⟩
    · rw [hout, hset]
    · simp [hil]
  · have hieq : i = lp.length := by omega
    subst hieq
    have hb : before = ({ Name := R, IsMaster := true } : Repo) := by
      simp at hi; exact hi.symm
    have habs : ∀ x ∈ lp, x ≠ none ∧ x.map Repo.Name ≠ some R := by
      intro x hx
      apply hfirst
      simpa using hx
    subst hb
    refine ⟨lp ++ [some after], after, hu,
      upsertPtr_absent B s R size sched now lp after habs hu, ?_, Or.inr ⟨rfl, rfl, rfl⟩⟩
    simp

/-- After an invocation the matched record is again the first record named `R`,
at the same index and with no nil pointer before it, for the next invocation. -/
theorem upsertPtr_at_next (B : Int → String) (s : Status) (R : String) (size sched : Int)
    (now : Time) (lp : List (Option Repo)) (i : Nat) (before : Repo) (hs : validStatus s)
    (hi : (lp ++ [some ({ Name := R, IsMaster := true } : Repo)])[i]? = some (some before))
    (hR : before.Name = R)
    (hfirst : ∀ x ∈ (lp ++ [some ({ Name := R, IsMaster := true } : Repo)]).take i,
      x ≠ none ∧ x.map Repo.Name ≠ some R) :
    ∃ out after, run.update B s size sched now before = some after ∧
      run.upsertPtr B s R size sched now lp = .encoded out ∧ out[i]? = some (some after) ∧
      (out ++ [some ({ Name := R, IsMaster := true } : Repo)])[i]? = some (some after) ∧
      after.Name = R ∧
      (∀ x ∈ (out ++ [some ({ Name := R, IsMaster := true } : Repo)]).take i,
        x ≠ none ∧ x.map Repo.Name ≠ some R) := by
  obtain ⟨out, after, hu, hout, hget, hshape⟩ :=
    upsertPtr_at B s R size sched now lp i before hs hi hR hfirst
  have hname : after.Name = R :=
    ((update_frame B s size sched now before after hs hu).1).trans hR
  have hlt : i < out.length := (List.getElem?_eq_some.mp hget).1
  refine ⟨out, after, hu, hout, hget, ?_, hname, ?_⟩
  · rw [List.getElem?_append_left hlt]; exact hget
  · rw [List.take_append_of_le_length (le_of_lt hlt)]
    rcases hshape with ⟨hil, _, ho⟩ | ⟨hil, _, ho⟩
    · rw [ho, List.set_take, List.set_eq_of_length_le (by simp)]
      rw [List.take_append_of_le_length (le_of_lt hil)] at hfirst
      exact hfirst
    · subst hil
      rw [ho, List.take_append_of_le_length (le_refl _)]
      simpa using hfirst

/-- Records with other names only: none of the record names is `R`. -/
theorem recordNames_other (R : String) (lp : List (Option Repo))
    (h : ∀ x ∈ lp, x ≠ none ∧ x.map Repo.Name ≠ some R) : R ∉ recordNames lp := by
  intro hmem
  simp only [recordNames, List.mem_filterMap] at hmem
  obtain ⟨x, hx, hxR⟩ := hmem
  exact (h x hx).2 hxR

/-- With a valid status and the match reachable, the upsert emits a collection
whose record names are those of the input, in order, followed by the target
name when no input record has it. -/
theorem upsertPtr_names (B : Int → String) (s : Status) (R : String) (size sched : Int)
    (now : Time) (lp : List (Option Repo)) (hs : validStatus s)
    (hreach : matchReachable R lp = true) :
    ∃ out, run.upsertPtr B s R size sched now lp = .encoded out ∧
      recordNames out = recordNames lp ++ (if R ∈ recordNames lp then [] else [R]) ∧
      (out.length = if R ∈ recordNames lp then lp.length else lp.length + 1) := by
  rcases reachable_split R lp hreach with ⟨a, r, b, hl, ha, hr⟩ | hall
  · obtain ⟨r', hu⟩ := update_isSome B s size sched now r hs
    have hn := (update_frame B s size sched now r r' hs hu).1
    subst hl
    have hmem : R ∈ recordNames (a ++ some r :: b) := by
      simp only [recordNames, List.mem_filterMap]
      exact ⟨some r, by simp, by simp [hr]⟩
    refine ⟨_, upsertPtr_present B s R size sched now a b r r' ha hr hu, ?_, ?_⟩
    · rw [if_pos hmem]
      simp [recordNames, List.filterMap_append, hn]
    · rw [if_pos hmem]; simp
  · obtain ⟨r', hu⟩ := update_isSome B s size sched now { Name := R, IsMaster := true } hs
    have hn := (update_frame B s size sched now _ r' hs hu).1
    have hnot := recordNames_other R lp hall
    refine ⟨_, upsertPtr_absent B s R size sched now lp r' hall hu, ?_, ?_⟩
    · rw [if_neg hnot]
      simp [recordNames, List.filterMap_append, hn]
    · rw [if_neg hnot]; simp

/-! ## The claims -/

/-- C1, as stated, fails: a collection with a null element and no record named
`repo-a` makes the invocation (syncing, `repo-a`, 0, 0) panic at line 85;
nothing is emitted. -/
theorem C1_counterexample :
    "repo-a" ∉ recordNames [some ({ Name := "repo-b" } : Repo), none] ∧
    run.upsertPtr sampleByteUnit Syncing "repo-a" 0 0 sampleNow
      [some { Name := "repo-b" }, none] = .panicked :=
  ⟨by decide, by rfl⟩

/-- C1, amended. Upsert creates when absent: on a collection without null
elements and with no record named `R`, the invocation (syncing, `R`, size 0,
offset 0) at `now` emits a collection with exactly one record named `R`; it has
`IsMaster = true`, status syncing, the `last_started` pair stamped with `now`,
and the `last_update`, `last_ended` and `next_schedule` pairs empty. -/
theorem C1_upsert_creates_when_absent (B : Int → String) (R : String) (now : Time)
    (lp : List (Option Repo))
    (habs : ∀ x ∈ lp, x ≠ none ∧ x.map Repo.Name ≠ some R) :
    ∃ out rec, run.upsertPtr B Syncing R 0 0 now lp = .encoded out ∧
      out.filter (fun x => decide (x.map Repo.Name = some R)) = [some rec] ∧
      rec.IsMaster = true ∧ rec.Status = Syncing ∧
      rec.LastStartedISO8601 = now.Format ∧ rec.LastStartedTimestamp = now.Unix ∧
      rec.LastUpdateISO8601 = "" ∧ rec.LastUpdateTimestamp = 0 ∧
      rec.LastEndedISO8601 = "" ∧ rec.LastEndedTimestamp = 0 ∧
      rec.NextScheduleISO8601 = "" ∧ rec.NextScheduleTimestamp = 0 := by
  have hu : run.update B Syncing 0 0 now { Name := R, IsMaster := true } =
      some { Name := R, IsMaster := true, Status := Syncing,
             LastStartedISO8601 := now.Format, LastStartedTimestamp := now.Unix } := by
    rw [update_Syncing]; rfl
  have hout := upsertPtr_absent B Syncing R 0 0 now lp _ habs hu
  have hnil : lp.filter (fun x => decide (x.map Repo.Name = some R)) = [] := by
    rw [List.filter_eq_nil_iff]
    intro x hx
    simpa using (habs x hx).2
  have hfilter := List.filter_append (p := fun x => decide (x.map Repo.Name = some R)) lp
    [some ({ Name := R, IsMaster := true, Status := Syncing,
             LastStartedISO8601 := now.Format, LastStartedTimestamp := now.Unix } : Repo)]
  rw [hnil] at hfilter
  simp only [List.nil_append, List.filter_cons, Option.map_some', decide_True, if_true,
    List.filter_nil] at hfilter
  exact ⟨_, _, hout, hfilter, rfl, rfl, rfl, rfl, rfl, rfl, rfl, rfl, rfl, rfl⟩

theorem C1_witness :
    ∃ out rec, run.upsertPtr sampleByteUnit Syncing "repo-a" 0 0 sampleNow
        [some { Name := "repo-b" }] = .encoded out ∧
      out.filter (fun x => decide (x.map Repo.Name = some "repo-a")) = [some rec] ∧
      rec.IsMaster = true ∧ rec.Status = Syncing ∧
      rec.LastStartedISO8601 = sampleNow.Format ∧ rec.LastStartedTimestamp = sampleNow.Unix ∧
      rec.LastUpdateISO8601 = "" ∧ rec.LastUpdateTimestamp = 0 ∧
      rec.LastEndedISO8601 = "" ∧ rec.LastEndedTimestamp = 0 ∧
      rec.NextScheduleISO8601 = "" ∧ rec.NextScheduleTimestamp = 0 :=
  C1_upsert_creates_when_absent sampleByteUnit "repo-a" sampleNow
    [some { Name := "repo-b" }] (by decide)

/-- C2, as stated, fails: with a null element before the first record named
`repo-a`, at index 1, the invocation panics at line 85 and emits nothing. -/
theorem C2_counterexample :
    [none, some ({ Name := "repo-a" } : Repo)][1]? = some (some { Name := "repo-a" }) ∧
    run.upsertPtr sampleByteUnit Success "repo-a" 0 0 sampleNow
      [none, some { Name := "repo-a" }] = .panicked :=
  ⟨by rfl, by rfl⟩

/-- C2, amended. Upsert updates in place when present: when `i` is the first
index of the collection whose record is named `R` and no null element stands
before it, the invocation with name `R` and status success at `now` (any size
and offset) emits a collection of the input's length whose record at `i` has
status success and both the `last_update` and the `last_ended` pair stamped
with `now`. -/
theorem C2_upsert_updates_in_place (B : Int → String) (R : String) (size sched : Int)
    (now : Time) (lp : List (Option Repo)) (i : Nat) (before : Repo)
    (hi : lp[i]? = some (some before)) (hR : before.Name = R)
    (hfirst : ∀ x ∈ lp.take i, x ≠ none ∧ x.map Repo.Name ≠ some R) :
    ∃ out after, run.upsertPtr B Success R size sched now lp = .encoded out ∧
      out.length = lp.length ∧ out[i]? = some (some after) ∧ after.Status = Success ∧
      after.LastUpdateISO8601 = now.Format ∧ after.LastUpdateTimestamp = now.Unix ∧
      after.LastEndedISO8601 = now.Format ∧ after.LastEndedTimestamp = now.Unix := by
  have hil : i < lp.length := (List.getElem?_eq_some.mp hi).1
  have hi' : (lp ++ [some ({ Name := R, IsMaster := true } : Repo)])[i]?
      = some (some before) := by
    rw [List.getElem?_append_left hil]; exact hi
  have hfirst' : ∀ x ∈ (lp ++ [some ({ Name := R, IsMaster := true } : Repo)]).take i,
      x ≠ none ∧ x.map Repo.Name ≠ some R := by
    rw [List.take_append_of_le_length (le_of_lt hil)]; exact hfirst
  obtain ⟨out, after, hu, hout, hget, hshape⟩ :=
    upsertPtr_at B Success R size sched now lp i before (Or.inr (Or.inl rfl)) hi' hR hfirst'
  rw [update_Success] at hu
  cases hu
  refine ⟨out, _, hout, ?_, hget, rfl, rfl, rfl, rfl, rfl⟩
  rcases hshape with ⟨_, _, h⟩ | ⟨h, _, _⟩
  · rw [h]; simp
  · omega

theorem C2_witness :
    ∃ out after, run.upsertPtr sampleByteUnit Success "repo-a" 7 0 sampleNow
        [some { Name := "repo-b" }, some { Name := "repo-a", Status := Syncing }, none]
          = .encoded out ∧
      out.length = [some ({ Name := "repo-b" } : Repo),
        some { Name := "repo-a", Status := Syncing }, none].length ∧
      out[1]? = some (some after) ∧ after.Status = Success ∧
      after.LastUpdateISO8601 = sampleNow.Format ∧
      after.LastUpdateTimestamp = sampleNow.Unix ∧
      after.LastEndedISO8601 = sampleNow.Format ∧
      after.LastEndedTimestamp = sampleNow.Unix :=
  C2_upsert_updates_in_place sampleByteUnit "repo-a" 7 0 sampleNow
    [some { Name := "repo-b" }, some { Name := "repo-a", Status := Syncing }, none] 1
    { Name := "repo-a", Status := Syncing } (by decide) (by decide) (by decide)

/-- C3, as stated, fails: a collection that holds two records named `repo-a`
still holds both after an invocation for `repo-a`; and a collection with a null
element before the match makes the invocation panic, so that nothing is
emitted. -/
theorem C3_counterexample :
    run.upsertPtr sampleByteUnit Syncing "repo-a" 0 0 sampleNow
        [some { Name := "repo-a" }, some { Name := "repo-a" }] =
      .encoded [some { Name := "repo-a", Status := "syncing",
                       LastStartedISO8601 := "2026-11-04T14:04:00+01:00",
                       LastStartedTimestamp := 1793797440 }, some { Name := "repo-a" }] ∧
    ¬ (recordNames
      [some { Name := "repo-a", Status := "syncing",
              LastStartedISO8601 := "2026-11-04T14:04:00+01:00",
              LastStartedTimestamp := 1793797440 }, some { Name := "repo-a" }]).Nodup ∧
    run.upsertPtr sampleByteUnit Syncing "repo-a" 0 0 sampleNow
        [none, some { Name := "repo-a" }, some { Name := "repo-a" }] = .panicked :=
  ⟨by rfl, by decide, by rfl⟩

/-- C3, amended. On a collection in which no null element stands before the
first record named `R`, a valid invocation emits a collection and adds no
duplicate name: the names of the output's records are the names of the input's
records, in order, followed by the target name exactly when no input record has
it; so two records of the output share a name if and only if two records of
the input do. -/
theorem C3_no_duplicate_added (B : Int → String) (s : Status) (R : String)
    (size sched : Int) (now : Time) (lp : List (Option Repo)) (hs : validStatus s)
    (hreach : matchReachable R lp = true) :
    ∃ out, run.upsertPtr B s R size sched now lp = .encoded out ∧
      recordNames out = recordNames lp ++ (if R ∈ recordNames lp then [] else [R]) ∧
      ((recordNames out).Nodup ↔ (recordNames lp).Nodup) := by
  obtain ⟨out, hout, hmap, _⟩ := upsertPtr_names B s R size sched now lp hs hreach
  refine ⟨out, hout, hmap, ?_⟩
  rw [hmap]
  by_cases h : R ∈ recordNames lp
  · rw [if_pos h, List.append_nil]
  · rw [if_neg h, List.nodup_append]
    simp [h]

theorem C3_witness :
    ∃ out, run.upsertPtr sampleByteUnit Failed "repo-a" 0 0 sampleNow
        [some { Name := "repo-b" }, some { Name := "repo-b" }] = .encoded out ∧
      recordNames out
        = recordNames [some ({ Name := "repo-b" } : Repo), some { Name := "repo-b" }]
          ++ (if "repo-a" ∈
              recordNames [some ({ Name := "repo-b" } : Repo), some { Name := "repo-b" }]
            then [] else ["repo-a"]) ∧
      ((recordNames out).Nodup ↔
        (recordNames [some ({ Name := "repo-b" } : Repo), some { Name := "repo-b" }]).Nodup) :=
  C3_no_duplicate_added sampleByteUnit Failed "repo-a" 0 0 sampleNow
    [some { Name := "repo-b" }, some { Name := "repo-b" }] (by decide) (by decide)

/-- C4, as stated, fails: the record names of `[repo-a, null, repo-b]` are
pairwise distinct, and the invocation for `repo-c` panics at the null element,
so that nothing is emitted. -/
theorem C4_counterexample :
    (recordNames [some ({ Name := "repo-a" } : Repo), none, some { Name := "repo-b" }]).Nodup ∧
    run.upsertPtr sampleByteUnit Success "repo-c" 0 0 sampleNow
      [some { Name := "repo-a" }, none, some { Name := "repo-b" }] = .panicked :=
  ⟨by decide, by rfl⟩

/-- C4, amended. Name uniqueness is preserved: when the names of the input
records are pairwise distinct and no null element stands before the first
record named `R`, every valid invocation emits a collection whose record names
are pairwise distinct. -/
theorem C4_name_uniqueness_preserved (B : Int → String) (s : Status) (R : String)
    (size sched : Int) (now : Time) (lp : List (Option Repo)) (hs : validStatus s)
    (hreach : matchReachable R lp = true) (hl : (recordNames lp).Nodup) :
    ∃ out, run.upsertPtr B s R size sched now lp = .encoded out ∧
      (recordNames out).Nodup := by
  obtain ⟨out, hout, hmap, _⟩ := upsertPtr_names B s R size sched now lp hs hreach
  refine ⟨out, hout, ?_⟩
  rw [hmap]
  by_cases h : R ∈ recordNames lp
  · rw [if_pos h, List.append_nil]; exact hl
  · rw [if_neg h, List.nodup_append]
    refine ⟨hl, List.nodup_singleton R, ?_⟩
    intro n hn hn'
    rw [List.mem_singleton] at hn'
    exact h (hn' ▸ hn)

theorem C4_witness :
    ∃ out, run.upsertPtr sampleByteUnit Success "repo-c" 0 0 sampleNow
        [some { Name := "repo-a" }, some { Name := "repo-b" }] = .encoded out ∧
      (recordNames out).Nodup :=
  C4_name_uniqueness_preserved sampleByteUnit Success "repo-c" 0 0 sampleNow
    [some { Name := "repo-a" }, some { Name := "repo-b" }] (by decide) (by decide)
    (by decide)

/-- C5, as stated, fails: on `[repo-b, null]` with target `repo-a` the loop
panics at the null element; no collection is emitted, with or without the
placeholder. -/
theorem C5_counterexample :
    run.upsertPtr sampleByteUnit Failed "repo-a" 0 0 sampleNow
      [some { Name := "repo-b" }, none] = .panicked := by
  rfl

/-- C5, amended. No dangling or doubled placeholder: on a collection in which
no null element stands before the first record named `R`, every valid
invocation with target name `R` emits a collection of the input's length when
some input record is named `R`, and otherwise of the input's length plus one,
the extra element being the last, a record named `R` with `IsMaster = true`. -/
theorem C5_no_dangling_synthetic_record (B : Int → String) (s : Status) (R : String)
    (size sched : Int) (now : Time) (lp : List (Option Repo)) (hs : validStatus s)
    (hreach : matchReachable R lp = true) :
    ∃ out, run.upsertPtr B s R size sched now lp = .encoded out ∧
      (out.length = lp.length ∨ out.length = lp.length + 1) ∧
      (out.length = lp.length + 1 ↔ R ∉ recordNames lp) ∧
      (out.length = lp.length + 1 →
        ∃ rec, out.getLast? = some (some rec) ∧ out.take lp.length = lp ∧
          rec.Name = R ∧ rec.IsMaster = true) := by
  rcases reachable_split R lp hreach with ⟨a, r, b, hl, ha, hr⟩ | hall
  · obtain ⟨r', hu⟩ := update_isSome B s size sched now r hs
    subst hl
    have hlen : (a ++ some r' :: b).length = (a ++ some r :: b).length := by simp
    have hmem : R ∈ recordNames (a ++ some r :: b) := by
      simp only [recordNames, List.mem_filterMap]
      exact ⟨some r, by simp, by simp [hr]⟩
    refine ⟨_, upsertPtr_present B s R size sched now a b r r' ha hr hu, Or.inl hlen, ?_, ?_⟩
    · constructor
      · intro hc; omega
      · intro hc; exact absurd hmem hc
    · intro hc; omega
  · obtain ⟨r', hu⟩ := update_isSome B s size sched now { Name := R, IsMaster := true } hs
    have hf := update_frame B s size sched now _ r' hs hu
    have hnot := recordNames_other R lp hall
    refine ⟨_, upsertPtr_absent B s R size sched now lp r' hall hu, Or.inr (by simp), ?_, ?_⟩
    · constructor
      · intro _; exact hnot
      · intro _; simp
    · intro _
      exact ⟨r', by simp, by simp, hf.1, hf.2.1⟩

theorem C5_witness :
    ∃ out, run.upsertPtr sampleByteUnit Syncing "repo-a" 0 0 sampleNow
        [some { Name := "repo-b" }] = .encoded out ∧
      (out.length = [some ({ Name := "repo-b" } : Repo)].length ∨
        out.length = [some ({ Name := "repo-b" } : Repo)].length + 1) ∧
      (out.length = [some ({ Name := "repo-b" } : Repo)].length + 1 ↔
        "repo-a" ∉ recordNames [some ({ Name := "repo-b" } : Repo)]) ∧
      (out.length = [some ({ Name := "repo-b" } : Repo)].length + 1 →
        ∃ rec, out.getLast? = some (some rec) ∧
          out.take [some ({ Name := "repo-b" } : Repo)].length
            = [some ({ Name := "repo-b" } : Repo)] ∧
          rec.Name = "repo-a" ∧ rec.IsMaster = true) :=
  C5_no_dangling_synthetic_record sampleByteUnit Syncing "repo-a" 0 0 sampleNow
    [some { Name := "repo-b" }] (by decide) (by decide)

/-- C6. Transition rule table: `setTime` with status pending stamps the
`next_schedule` pair, with syncing the `last_started` pair, with success the
`last_update` and `last_ended` pairs, with failed the `last_ended` pair, each
with the RFC 3339 string and the Unix seconds of `t`, and changes no other
field of the record. -/
theorem C6_transition_rule_table (r : Repo) (t : Time) :
    setTime r Pending t =
        some { r with NextScheduleISO8601 := t.Format, NextScheduleTimestamp := t.Unix } ∧
    setTime r Syncing t =
        some { r with LastStartedISO8601 := t.Format, LastStartedTimestamp := t.Unix } ∧
    setTime r Success t =
        some { r with LastUpdateISO8601 := t.Format, LastUpdateTimestamp := t.Unix,
                      LastEndedISO8601 := t.Format, LastEndedTimestamp := t.Unix } ∧
    setTime r Failed t =
        some { r with LastEndedISO8601 := t.Format, LastEndedTimestamp := t.Unix } :=
  ⟨setTime_Pending r t, setTime_Syncing r t, setTime_Success r t, setTime_Failed r t⟩

/-- C7, as stated, fails: with status failed and a schedule offset of one hour
the `next_schedule` pair of the matched record changes too; and a collection
with a null element before the match makes the invocation panic. -/
theorem C7_counterexample :
    run.upsertPtr sampleByteUnit Failed "repo-a" 0 3600000000000 sampleNow
        [some { Name := "repo-a" }] =
      .encoded [some { Name := "repo-a", Status := "failed",
                       LastEndedISO8601 := "2026-11-04T14:04:00+01:00",
                       LastEndedTimestamp := 1793797440,
                       NextScheduleISO8601 := "2026-11-04T15:04:00+01:00",
                       NextScheduleTimestamp := 1793801040 }] ∧
    ({ Name := "repo-a" } : Repo).NextScheduleISO8601 ≠ "2026-11-04T15:04:00+01:00" ∧
    ({ Name := "repo-a" } : Repo).NextScheduleTimestamp ≠ 1793801040 ∧
    run.upsertPtr sampleByteUnit Failed "repo-a" 0 0 sampleNow
        [none, some { Name := "repo-a" }] = .panicked :=
  ⟨by rfl, by decide, by decide, by rfl⟩

/-- C7, amended. In an invocation with status failed the matched record (the
first record named `R` of the collection with the placeholder appended, at
index `i`, no null element standing before it) gets its `last_ended` pair
stamped with `now` and keeps its `last_update` and `last_started` pairs; its
`next_schedule` pair is kept when the schedule offset is 0 and stamped with
`now + offset` otherwise. -/
theorem C7_failed_stamps_last_ended_only (B : Int → String) (R : String)
    (size sched : Int) (now : Time) (lp : List (Option Repo)) (i : Nat) (before : Repo)
    (hi : (lp ++ [some ({ Name := R, IsMaster := true } : Repo)])[i]? = some (some before))
    (hR : before.Name = R)
    (hfirst : ∀ x ∈ (lp ++ [some ({ Name := R, IsMaster := true } : Repo)]).take i,
      x ≠ none ∧ x.map Repo.Name ≠ some R) :
    ∃ out after, run.upsertPtr B Failed R size sched now lp = .encoded out ∧
      out[i]? = some (some after) ∧
      after.LastEndedISO8601 = now.Format ∧ after.LastEndedTimestamp = now.Unix ∧
      after.LastUpdateISO8601 = before.LastUpdateISO8601 ∧
      after.LastUpdateTimestamp = before.LastUpdateTimestamp ∧
      after.LastStartedISO8601 = before.LastStartedISO8601 ∧
      after.LastStartedTimestamp = before.LastStartedTimestamp ∧
      (sched = 0 → after.NextScheduleISO8601 = before.NextScheduleISO8601 ∧
        after.NextScheduleTimestamp = before.NextScheduleTimestamp) ∧
      (sched ≠ 0 → after.NextScheduleISO8601 = (now.Add sched).Format ∧
        after.NextScheduleTimestamp = (now.Add sched).Unix) := by
  obtain ⟨out, after, hu, hout, hget, _⟩ :=
    upsertPtr_at B Failed R size sched now lp i before (Or.inr (Or.inr rfl)) hi hR hfirst
  rw [update_Failed] at hu
  cases hu
  refine ⟨out, _, hout, hget, rfl, rfl, rfl, rfl, rfl, rfl, ?_, ?_⟩
  · intro hz; simp [hz]
  · intro hz; simp [hz]

theorem C7_witness :
    ∃ out after, run.upsertPtr sampleByteUnit Failed "repo-a" 0 0 sampleNow
        [some { Name := "repo-a", LastUpdateTimestamp := 5 }, none] = .encoded out ∧
      out[0]? = some (some after) ∧
      after.LastEndedISO8601 = sampleNow.Format ∧
      after.LastEndedTimestamp = sampleNow.Unix ∧
      after.LastUpdateISO8601
        = ({ Name := "repo-a", LastUpdateTimestamp := 5 } : Repo).LastUpdateISO8601 ∧
      after.LastUpdateTimestamp
        = ({ Name := "repo-a", LastUpdateTimestamp := 5 } : Repo).LastUpdateTimestamp ∧
      after.LastStartedISO8601
        = ({ Name := "repo-a", LastUpdateTimestamp := 5 } : Repo).LastStartedISO8601 ∧
      after.LastStartedTimestamp
        = ({ Name := "repo-a", LastUpdateTimestamp := 5 } : Repo).LastStartedTimestamp ∧
      ((0 : Int) = 0 → after.NextScheduleISO8601
          = ({ Name := "repo-a", LastUpdateTimestamp := 5 } : Repo).NextScheduleISO8601 ∧
        after.NextScheduleTimestamp
          = ({ Name := "repo-a", LastUpdateTimestamp := 5 } : Repo).NextScheduleTimestamp) ∧
      ((0 : Int) ≠ 0 → after.NextScheduleISO8601 = (sampleNow.Add 0).Format ∧
        after.NextScheduleTimestamp = (sampleNow.Add 0).Unix) :=
  C7_failed_stamps_last_ended_only sampleByteUnit "repo-a" 0 0 sampleNow
    [some { Name := "repo-a", LastUpdateTimestamp := 5 }, none] 0
    { Name := "repo-a", LastUpdateTimestamp := 5 } (by decide) (by decide) (by decide)

/-- C8, as stated, fails: on a collection whose first element is null the
invocation (syncing, offset one hour) panics at line 85; no record is left
with any stamp. -/
theorem C8_counterexample :
    run.upsertPtr sampleByteUnit Syncing "repo-a" 0 3600000000000 sampleNow
      [none, some { Name := "repo-b" }] = .panicked := by
  rfl

/-- C8, amended. Schedule independence: in an invocation with status syncing the
matched record (the first record named `R` of the collection with the
placeholder appended, at index `i`, no null element standing before it) ends
with status syncing, not pending, and its `last_started` pair stamped with
`now`; with a non-zero offset `d` its `next_schedule` pair is stamped with
`now + d`, with offset 0 that pair keeps its value from before the invocation. -/
theorem C8_schedule_independence (B : Int → String) (R : String)
    (size d : Int) (now : Time) (lp : List (Option Repo)) (i : Nat) (before : Repo)
    (hi : (lp ++ [some ({ Name := R, IsMaster := true } : Repo)])[i]? = some (some before))
    (hR : before.Name = R)
    (hfirst : ∀ x ∈ (lp ++ [some ({ Name := R, IsMaster := true } : Repo)]).take i,
      x ≠ none ∧ x.map Repo.Name ≠ some R) :
    ∃ out after, run.upsertPtr B Syncing R size d now lp = .encoded out ∧
      out[i]? = some (some after) ∧
      after.Status = Syncing ∧ after.Status ≠ Pending ∧
      after.LastStartedISO8601 = now.Format ∧ after.LastStartedTimestamp = now.Unix ∧
      (d ≠ 0 → after.NextScheduleISO8601 = (now.Add d).Format ∧
        after.NextScheduleTimestamp = (now.Add d).Unix) ∧
      (d = 0 → after.NextScheduleISO8601 = before.NextScheduleISO8601 ∧
        after.NextScheduleTimestamp = before.NextScheduleTimestamp) := by
  obtain ⟨out, after, hu, hout, hget, _⟩ :=
    upsertPtr_at B Syncing R size d now lp i before (Or.inl rfl) hi hR hfirst
  rw [update_Syncing] at hu
  cases hu
  have hne : Syncing ≠ Pending := by decide
  refine ⟨out, _, hout, hget, rfl, hne, rfl, rfl, ?_, ?_⟩
  · intro hz; simp [hz]
  · intro hz; simp [hz]

theorem C8_witness :
    ∃ out after, run.upsertPtr sampleByteUnit Syncing "repo-a" 0 3600000000000 sampleNow
        [some { Name := "repo-b" }] = .encoded out ∧
      out[1]? = some (some after) ∧
      after.Status = Syncing ∧ after.Status ≠ Pending ∧
      after.LastStartedISO8601 = sampleNow.Format ∧
      after.LastStartedTimestamp = sampleNow.Unix ∧
      ((3600000000000 : Int) ≠ 0 →
        after.NextScheduleISO8601 = (sampleNow.Add 3600000000000).Format ∧
        after.NextScheduleTimestamp = (sampleNow.Add 3600000000000).Unix) ∧
      ((3600000000000 : Int) = 0 →
        after.NextScheduleISO8601
          = ({ Name := "repo-a", IsMaster := true } : Repo).NextScheduleISO8601 ∧
        after.NextScheduleTimestamp
          = ({ Name := "repo-a", IsMaster := true } : Repo).NextScheduleTimestamp) :=
  C8_schedule_independence sampleByteUnit "repo-a" 0 3600000000000 sampleNow
    [some { Name := "repo-b" }] 1 { Name := "repo-a", IsMaster := true }
    (by decide) (by decide) (by decide)

/-- C9, as stated, fails: in a location whose offset at the stamped instant
has seconds (44 minutes 30 seconds west of UTC), the `next_schedule` string
reads `-00:44`, and parsing it gives Unix seconds 30 less than the integer
component written next to it; and a collection with a null element before the
match makes the invocation panic, so that no pair is stamped. -/
theorem C9_counterexample :
    run.upsertPtr sampleByteUnit Syncing "repo-a" 0 (-1800000000000000000)
        ⟨1793797440, 0, sampleLocation⟩ [] =
      .encoded [some { Name := "repo-a", IsMaster := true, Status := "syncing",
                       LastStartedISO8601 := "2026-11-04T13:04:00Z",
                       LastStartedTimestamp := 1793797440,
                       NextScheduleISO8601 := "1969-10-21T04:19:30-00:44",
                       NextScheduleTimestamp := -6202560 }] ∧
    (parseRFC3339 "1969-10-21T04:19:30-00:44").map Time.Unix = some (-6202590) ∧
    (-6202590 : Int) ≠ -6202560 ∧
    run.upsertPtr sampleByteUnit Syncing "repo-a" 0 (-1800000000000000000)
        ⟨1793797440, 0, sampleLocation⟩ [none] = .panicked :=
  ⟨by rfl, by rfl, by decide, by rfl⟩

/-- C9, amended. Pair consistency: in a valid invocation every timestamp pair
the invocation stamps on the matched record (the first record named `R` of the
collection with the placeholder appended, at index `i`, no null element
standing before it) is written from one instant (`now` for the pairs of the
new status, `now + offset` for `next_schedule` when the offset is non-zero):
the string is the RFC 3339 form of that instant and the integer its Unix
seconds; and when that form is exact (zone offset of whole minutes, less than
a day, local year from 0 to 9999) the integer equals the Unix seconds obtained
by parsing the string as RFC 3339. -/
theorem C9_pair_consistency (B : Int → String) (s : Status) (R : String)
    (size sched : Int) (now : Time) (lp : List (Option Repo)) (i : Nat) (before : Repo)
    (hs : validStatus s)
    (hi : (lp ++ [some ({ Name := R, IsMaster := true } : Repo)])[i]? = some (some before))
    (hR : before.Name = R)
    (hfirst : ∀ x ∈ (lp ++ [some ({ Name := R, IsMaster := true } : Repo)]).take i,
      x ≠ none ∧ x.map Repo.Name ≠ some R) :
    ∃ out after, run.upsertPtr B s R size sched now lp = .encoded out ∧
      out[i]? = some (some after) ∧
      (s = Syncing →
        stampedWith after.LastStartedISO8601 after.LastStartedTimestamp now) ∧
      (s = Success →
        stampedWith after.LastUpdateISO8601 after.LastUpdateTimestamp now ∧
        stampedWith after.LastEndedISO8601 after.LastEndedTimestamp now) ∧
      (s = Failed →
        stampedWith after.LastEndedISO8601 after.LastEndedTimestamp now) ∧
      (sched ≠ 0 →
        stampedWith after.NextScheduleISO8601 after.NextScheduleTimestamp
          (now.Add sched)) := by
  have hstamp : ∀ t : Time, stampedWith t.Format t.Unix t := by
    intro t
    refine ⟨rfl, rfl, fun hex => ?_⟩
    obtain ⟨t', hp, hu⟩ := parseRFC3339_Format t hex
    rw [hp, Option.map_some', hu]
  obtain ⟨out, after, hu, hout, hget, _⟩ :=
    upsertPtr_at B s R size sched now lp i before hs hi hR hfirst
  refine ⟨out, after, hout, hget, ?_, ?_, ?_, ?_⟩
  · intro h; subst h
    rw [update_Syncing] at hu; cases hu
    exact hstamp now
  · intro h; subst h
    rw [update_Success] at hu; cases hu
    exact ⟨hstamp now, hstamp now⟩
  · intro h; subst h
    rw [update_Failed] at hu; cases hu
    exact hstamp now
  · intro hz
    rcases hs with h | h | h <;> subst h
    · rw [update_Syncing] at hu; cases hu
      simp only [hz, if_false]
      exact hstamp (now.Add sched)
    · rw [update_Success] at hu; cases hu
      simp only [hz, if_false]
      exact hstamp (now.Add sched)
    · rw [update_Failed] at hu; cases hu
      simp only [hz, if_false]
      exact hstamp (now.Add sched)

theorem C9_witness :
    sampleNow.rfc3339Exact ∧ (sampleNow.Add 3600000000000).rfc3339Exact ∧
    ∃ out after, run.upsertPtr sampleByteUnit Success "repo-a" 0 3600000000000 sampleNow
        [some { Name := "repo-a" }] = .encoded out ∧
      out[0]? = some (some after) ∧
      (Success = Syncing →
        stampedWith after.LastStartedISO8601 after.LastStartedTimestamp sampleNow) ∧
      (Success = Success →
        stampedWith after.LastUpdateISO8601 after.LastUpdateTimestamp sampleNow ∧
        stampedWith after.LastEndedISO8601 after.LastEndedTimestamp sampleNow) ∧
      (Success = Failed →
        stampedWith after.LastEndedISO8601 after.LastEndedTimestamp sampleNow) ∧
      ((3600000000000 : Int) ≠ 0 →
        stampedWith after.NextScheduleISO8601 after.NextScheduleTimestamp
          (sampleNow.Add 3600000000000)) :=
  ⟨by decide, by decide,
    C9_pair_consistency sampleByteUnit Success "repo-a" 0 3600000000000 sampleNow
      [some { Name := "repo-a" }] 0 { Name := "repo-a" } (by decide) (by decide) (by decide)
      (by decide)⟩

/-- C10, as stated, fails: on `[null, repo-a]` the invocation with size 1048576
panics at line 85; the record named `repo-a` is never given the size. -/
theorem C10_counterexample :
    run.upsertPtr sampleByteUnit Success "repo-a" 1048576 0 sampleNow
      [none, some { Name := "repo-a", SizeBytes := 3 }] = .panicked := by
  rfl

/-- C10, amended. Size assignment: in a valid invocation the matched record (the
first record named `R` of the collection with the placeholder appended, at
index `i`, no null element standing before it) ends, when the size argument is
non-zero, with `SizeBytes` equal to the argument and `SizeHumanReadable` equal
to the byte-unit form of the argument, and, when the size argument is zero,
with both fields as before the invocation. -/
theorem C10_size_assignment (B : Int → String) (s : Status) (R : String)
    (size sched : Int) (now : Time) (lp : List (Option Repo)) (i : Nat) (before : Repo)
    (hs : validStatus s)
    (hi : (lp ++ [some ({ Name := R, IsMaster := true } : Repo)])[i]? = some (some before))
    (hR : before.Name = R)
    (hfirst : ∀ x ∈ (lp ++ [some ({ Name := R, IsMaster := true } : Repo)]).take i,
      x ≠ none ∧ x.map Repo.Name ≠ some R) :
    ∃ out after, run.upsertPtr B s R size sched now lp = .encoded out ∧
      out[i]? = some (some after) ∧
      (size ≠ 0 → after.SizeBytes = size ∧ after.SizeHumanReadable = B size) ∧
      (size = 0 → after.SizeBytes = before.SizeBytes ∧
        after.SizeHumanReadable = before.SizeHumanReadable) := by
  obtain ⟨out, after, hu, hout, hget, _⟩ :=
    upsertPtr_at B s R size sched now lp i before hs hi hR hfirst
  have e := update_size B s size sched now before after hs hu
  refine ⟨out, after, hout, hget, ?_, ?_⟩
  · intro hz
    rw [if_neg hz, if_neg hz] at e
    exact e
  · intro hz
    rw [if_pos hz, if_pos hz] at e
    exact e

theorem C10_witness :
    ∃ out after, run.upsertPtr sampleByteUnit Success "repo-a" 1048576 0 sampleNow
        [some { Name := "repo-a", SizeBytes := 3 }] = .encoded out ∧
      out[0]? = some (some after) ∧
      ((1048576 : Int) ≠ 0 →
        after.SizeBytes = 1048576 ∧ after.SizeHumanReadable = sampleByteUnit 1048576) ∧
      ((1048576 : Int) = 0 →
        after.SizeBytes = ({ Name := "repo-a", SizeBytes := 3 } : Repo).SizeBytes ∧
        after.SizeHumanReadable
          = ({ Name := "repo-a", SizeBytes := 3 } : Repo).SizeHumanReadable) :=
  C10_size_assignment sampleByteUnit Success "repo-a" 1048576 0 sampleNow
    [some { Name := "repo-a", SizeBytes := 3 }] 0 { Name := "repo-a", SizeBytes := 3 }
    (by decide) (by decide) (by decide) (by decide)

/-- C11, as stated, fails: on `[null, repo-a]` the first invocation with size
1048576 already panics at line 85, so no size pair is written at all. -/
theorem C11_counterexample :
    run.upsertPtr sampleByteUnit Syncing "repo-a" 1048576 0 sampleNow
      [none, some { Name := "repo-a" }] = .panicked := by
  rfl

/-- C11, amended. Idempotence on size: when no null element stands before the
matched record (the first record named `R` of the collection with the
placeholder appended, at index `i`), an invocation with a non-zero size leaves
the matched record with that size and its byte-unit form; a second invocation
on the result with the same name and size leaves the record with the same size
pair, and a following invocation with size 0 keeps the pair as well (whatever
valid statuses, offsets and instants the three invocations have). -/
theorem C11_size_idempotent (B : Int → String) (s1 s2 s3 : Status) (R : String)
    (size sched1 sched2 sched3 : Int) (now1 now2 now3 : Time) (lp : List (Option Repo))
    (i : Nat) (before : Repo) (hsize : size ≠ 0)
    (hs1 : validStatus s1) (hs2 : validStatus s2) (hs3 : validStatus s3)
    (hi : (lp ++ [some ({ Name := R, IsMaster := true } : Repo)])[i]? = some (some before))
    (hR : before.Name = R)
    (hfirst : ∀ x ∈ (lp ++ [some ({ Name := R, IsMaster := true } : Repo)]).take i,
      x ≠ none ∧ x.map Repo.Name ≠ some R) :
    ∃ out1 out2 out3 a1 a2 a3,
      run.upsertPtr B s1 R size sched1 now1 lp = .encoded out1 ∧
      out1[i]? = some (some a1) ∧
      run.upsertPtr B s2 R size sched2 now2 out1 = .encoded out2 ∧
      out2[i]? = some (some a2) ∧
      run.upsertPtr B s3 R 0 sched3 now3 out2 = .encoded out3 ∧
      out3[i]? = some (some a3) ∧
      a1.SizeBytes = size ∧ a1.SizeHumanReadable = B size ∧
      a2.SizeBytes = a1.SizeBytes ∧ a2.SizeHumanReadable = a1.SizeHumanReadable ∧
      a3.SizeBytes = a2.SizeBytes ∧ a3.SizeHumanReadable = a2.SizeHumanReadable := by
  obtain ⟨out1, a1, hu1, ho1, hg1, hi1, hR1, hf1⟩ :=
    upsertPtr_at_next B s1 R size sched1 now1 lp i before hs1 hi hR hfirst
  obtain ⟨out2, a2, hu2, ho2, hg2, hi2, hR2, hf2⟩ :=
    upsertPtr_at_next B s2 R size sched2 now2 out1 i a1 hs2 hi1 hR1 hf1
  obtain ⟨out3, a3, hu3, ho3, hg3, _, _, _⟩ :=
    upsertPtr_at_next B s3 R 0 sched3 now3 out2 i a2 hs3 hi2 hR2 hf2
  have e1 := update_size B s1 size sched1 now1 before a1 hs1 hu1
  have e2 := update_size B s2 size sched2 now2 a1 a2 hs2 hu2
  have e3 := update_size B s3 0 sched3 now3 a2 a3 hs3 hu3
  rw [if_neg hsize, if_neg hsize] at e1 e2
  rw [if_pos rfl, if_pos rfl] at e3
  exact ⟨out1, out2, out3, a1, a2, a3, ho1, hg1, ho2, hg2, ho3, hg3, e1.1, e1.2,
    e2.1.trans e1.1.symm, e2.2.trans e1.2.symm, e3.1, e3.2⟩

theorem C11_witness :
    ∃ out1 out2 out3 a1 a2 a3,
      run.upsertPtr sampleByteUnit Syncing "repo-a" 1048576 0 sampleNow
        [some { Name := "repo-a" }] = .encoded out1 ∧ out1[0]? = some (some a1) ∧
      run.upsertPtr sampleByteUnit Success "repo-a" 1048576 0 sampleNow out1
        = .encoded out2 ∧ out2[0]? = some (some a2) ∧
      run.upsertPtr sampleByteUnit Failed "repo-a" 0 0 sampleNow out2
        = .encoded out3 ∧ out3[0]? = some (some a3) ∧
      a1.SizeBytes = 1048576 ∧ a1.SizeHumanReadable = sampleByteUnit 1048576 ∧
      a2.SizeBytes = a1.SizeBytes ∧ a2.SizeHumanReadable = a1.SizeHumanReadable ∧
      a3.SizeBytes = a2.SizeBytes ∧ a3.SizeHumanReadable = a2.SizeHumanReadable :=
  C11_size_idempotent sampleByteUnit Syncing Success Failed "repo-a" 1048576 0 0 0
    sampleNow sampleNow sampleNow [some { Name := "repo-a" }] 0 { Name := "repo-a" }
    (by decide) (by decide) (by decide) (by decide) (by decide) (by decide) (by decide)

/-- C12, as stated, fails: on `[repo-b, null, repo-a]` the invocation for
`repo-a` panics at the null element; the record `repo-b` appears in no output. -/
theorem C12_counterexample :
    run.upsertPtr sampleByteUnit Success "repo-a" 0 0 sampleNow
      [some { Name := "repo-b" }, none, some { Name := "repo-a" }] = .panicked := by
  rfl

/-- C12, amended. Frame of the upsert: on a collection in which no null element
stands before the first record named `R`, a valid invocation with target name
`R` emits a collection in which every input element that is not the first
record named `R` (it is null, or a record with another name, or an earlier
record is named `R`) is the output element at the same index, unchanged; and
the first input record named `R`, if there is one, keeps its name, its
upstream and its master flag. -/
theorem C12_frame (B : Int → String) (s : Status) (R : String) (size sched : Int)
    (now : Time) (lp : List (Option Repo)) (hs : validStatus s)
    (hreach : matchReachable R lp = true) :
    ∃ out, run.upsertPtr B s R size sched now lp = .encoded out ∧
      (∀ (j : Nat) (x : Option Repo), lp[j]? = some x →
        (x.map Repo.Name ≠ some R ∨
          ∃ (k : Nat) (y : Repo), k < j ∧ lp[k]? = some (some y) ∧ y.Name = R) →
        out[j]? = some x) ∧
      (∀ (i : Nat) (before : Repo), lp[i]? = some (some before) → before.Name = R →
        (∀ x ∈ lp.take i, x.map Repo.Name ≠ some R) →
        ∃ after, out[i]? = some (some after) ∧ after.Name = before.Name ∧
          after.Upstream = before.Upstream ∧ after.IsMaster = before.IsMaster) := by
  rcases reachable_split R lp hreach with ⟨a, r, b, hl, ha, hr⟩ | hall
  · obtain ⟨r', hu⟩ := update_isSome B s size sched now r hs
    have hfr := update_frame B s size sched now r r' hs hu
    subst hl
    refine ⟨_, upsertPtr_present B s R size sched now a b r r' ha hr hu, ?_, ?_⟩
    · intro j x hj hcond
      rcases Nat.lt_trichotomy j a.length with hlt | heq | hgt
      · rw [List.getElem?_append_left hlt] at hj ⊢
        exact hj
      · subst heq
        have hx : x = some r := by
          rw [List.getElem?_append_right (le_refl _)] at hj
          simpa using hj.symm
        subst hx
        rcases hcond with hne | ⟨k, y, hk, hy, hyR⟩
        · exact absurd (by simp [hr]) hne
        · rw [List.getElem?_append_left hk] at hy
          exact absurd (by simp [hyR]) (ha (some y) (List.getElem?_mem hy)).2
      · rw [List.getElem?_append_right (le_of_lt hgt)] at hj ⊢
        obtain ⟨n, hn⟩ : ∃ n, j - a.length = n + 1 := ⟨j - a.length - 1, by omega⟩
        rw [hn] at hj ⊢
        simpa using hj
    · intro i before hib hbR hfirst
      rcases Nat.lt_trichotomy i a.length with hlt | heq | hgt
      · rw [List.getElem?_append_left hlt] at hib
        exact absurd (by simp [hbR]) (ha (some before) (List.getElem?_mem hib)).2
      · subst heq
        have hx : before = r := by
          rw [List.getElem?_append_right (le_refl _)] at hib
          simpa using hib.symm
        subst hx
        refine ⟨r', ?_, hfr.1, hfr.2.2.1, hfr.2.1⟩
        rw [List.getElem?_append_right (le_refl _)]
        simp
      · have hmem : some r ∈ (a ++ some r :: b).take i := by
          obtain ⟨n, hn⟩ : ∃ n, i - a.length = n + 1 := ⟨i - a.length - 1, by omega⟩
          rw [List.take_append_eq_append_take, hn]
          simp
        exact absurd (by simp [hr]) (hfirst (some r) hmem)
  · obtain ⟨r', hu⟩ := update_isSome B s size sched now { Name := R, IsMaster := true } hs
    refine ⟨_, upsertPtr_absent B s R size sched now lp r' hall hu, ?_, ?_⟩
    · intro j x hj _
      have hlt : j < lp.length := (List.getElem?_eq_some.mp hj).1
      rw [List.getElem?_append_left hlt]
      exact hj
    · intro i before hib hbR _
      exact absurd (by simp [hbR]) (hall (some before) (List.getElem?_mem hib)).2

theorem C12_witness :
    ∃ out, run.upsertPtr sampleByteUnit Success "repo-a" 0 0 sampleNow
        [some { Name := "repo-b" }, some { Name := "repo-a", Upstream := "u" }, none,
          some { Name := "repo-a" }] = .encoded out ∧
      (∀ (j : Nat) (x : Option Repo),
        [some ({ Name := "repo-b" } : Repo), some { Name := "repo-a", Upstream := "u" }, none,
          some { Name := "repo-a" }][j]? = some x →
        (x.map Repo.Name ≠ some "repo-a" ∨ ∃ (k : Nat) (y : Repo), k < j ∧
          [some ({ Name := "repo-b" } : Repo), some { Name := "repo-a", Upstream := "u" },
            none, some { Name := "repo-a" }][k]? = some (some y) ∧ y.Name = "repo-a") →
        out[j]? = some x) ∧
      (∀ (i : Nat) (before : Repo),
        [some ({ Name := "repo-b" } : Repo), some { Name := "repo-a", Upstream := "u" }, none,
          some { Name := "repo-a" }][i]? = some (some before) → before.Name = "repo-a" →
        (∀ x ∈ [some ({ Name := "repo-b" } : Repo), some { Name := "repo-a", Upstream := "u" },
          none, some { Name := "repo-a" }].take i, x.map Repo.Name ≠ some "repo-a") →
        ∃ after, out[i]? = some (some after) ∧ after.Name = before.Name ∧
          after.Upstream = before.Upstream ∧ after.IsMaster = before.IsMaster) :=
  C12_frame sampleByteUnit Success "repo-a" 0 0 sampleNow
    [some { Name := "repo-b" }, some { Name := "repo-a", Upstream := "u" }, none,
      some { Name := "repo-a" }] (by decide) (by decide)

/-- C13. Concrete scenario: on the empty collection the invocation (success,
`repo-a`, size 1048576, no offset) at `now` emits exactly one record, named
`repo-a`, with `IsMaster = true`, status success, `SizeBytes = 1048576`, the
`last_update` and `last_ended` timestamps both the Unix seconds of `now`, and
the `last_started` and `next_schedule` timestamps 0; the loop on records and
the loop on pointers agree on it. -/
theorem C13_concrete_scenario (B : Int → String) (now : Time) :
    ∃ rec, run.upsert B Success "repo-a" 1048576 0 now [] = .encoded [rec] ∧
      run.upsertPtr B Success "repo-a" 1048576 0 now [] = .encoded [some rec] ∧
      rec.Name = "repo-a" ∧ rec.IsMaster = true ∧ rec.Status = Success ∧
      rec.SizeBytes = 1048576 ∧ rec.SizeHumanReadable = B 1048576 ∧
      rec.LastUpdateTimestamp = now.Unix ∧ rec.LastEndedTimestamp = now.Unix ∧
      rec.LastUpdateTimestamp = rec.LastEndedTimestamp ∧
      rec.LastUpdateISO8601 = now.Format ∧ rec.LastEndedISO8601 = now.Format ∧
      rec.LastStartedTimestamp = 0 ∧ rec.NextScheduleTimestamp = 0 ∧
      rec.LastStartedISO8601 = "" ∧ rec.NextScheduleISO8601 = "" := by
  have hu := update_Success B 1048576 0 now { Name := "repo-a", IsMaster := true }
  have hout := upsert_absent B Success "repo-a" 1048576 0 now [] _ (by simp) hu
  have houtp := upsertPtr_absent B Success "repo-a" 1048576 0 now [] _ (by simp) hu
  exact ⟨_, hout, houtp, rfl, rfl, rfl, rfl, rfl, rfl, rfl, rfl, rfl, rfl, rfl, rfl, rfl, rfl⟩

/-! ## Argument handling -/

/-- The `switch` of lines 55-60 lets exactly the valid statuses through. -/
theorem switch_iff (s : Status) :
    (!(s == Syncing || s == Success || s == Failed)) = true ↔ ¬ validStatus s := by
  simp [validStatus, and_assoc]

/-- With fewer than two arguments after the program name, or a first argument
that is not a valid status, `run` returns the usage error. -/
theorem run_usage (ext : Externals) (Args : List String)
    (stdin : Except String (List (Option Repo))) (now : Time)
    (h : Args.length < 3 ∨ ¬ validStatus (Args.getD 1 "")) :
    run ext Args stdin now = .error usage := by
  have hsw : (!((if Args.length > 2 then Args.getD 1 "" else "") == Syncing ||
      (if Args.length > 2 then Args.getD 1 "" else "") == Success ||
      (if Args.length > 2 then Args.getD 1 "" else "") == Failed)) = true := by
    rw [switch_iff]
    by_cases hl : Args.length > 2
    · rw [if_pos hl]
      rcases h with h | h
      · omega
      · exact h
    · rw [if_neg hl]
      decide
  unfold run
  simp only [hsw, if_true]

/-- With two arguments after the program name, the first a valid status, `run`
reads the name, the size and the offset, decodes the input and runs the upsert. -/
theorem run_valid (ext : Externals) (Args : List String)
    (stdin : Except String (List (Option Repo))) (now : Time)
    (hl : 3 ≤ Args.length) (hv : validStatus (Args.getD 1 "")) :
    ∃ repoName, Args.get? 2 = some repoName ∧
      run ext Args stdin now =
        match (if Args.length > 3 then ext.ParseInt (Args.getD 3 "") else .ok 0) with
        | .error e => .error e
        | .ok repoSize =>
          match (if Args.length > 4 then ext.ParseDuration (Args.getD 4 "") else .ok 0) with
          | .error e => .error e
          | .ok schedule =>
            match stdin with
            | .error e => .error e
            | .ok repoList =>
              .ok (run.upsertPtr ext.ByteUnit (Args.getD 1 "") repoName repoSize schedule now
                repoList) := by
  have hl2 : Args.length > 2 := by omega
  have hsw : (!(Args.getD 1 "" == Syncing || Args.getD 1 "" == Success ||
      Args.getD 1 "" == Failed)) = false := by
    have := (switch_iff (Args.getD 1 "")).not.mpr (not_not.mpr hv)
    simpa using this
  obtain ⟨repoName, hn⟩ : ∃ repoName, Args.get? 2 = some repoName := by
    rw [List.get?_eq_get hl2]; exact ⟨_, rfl⟩
  refine ⟨repoName, hn, ?_⟩
  unfold run
  simp only [hl2, if_true, hsw, hn, Bool.false_eq_true, if_false]

/-- C14. Status validation: `run` returns the usage error if and only if fewer
than two arguments follow the program name or the first argument is not one of
syncing, success, failed (the other errors, of the parsers and of the decoder,
being different from the usage error); it does so whatever the input collection
is; a first argument `pending` is rejected; and whenever the `switch` lets the
status through, the repository-name argument exists, so that reading it is no
out-of-range access: a panic of `run` then is a panic of the upsert, run with
the name that was read. -/
theorem C14_status_validation (ext : Externals) (Args : List String)
    (stdin : Except String (List (Option Repo))) (now : Time)
    (hInt : ∀ a, ext.ParseInt a ≠ .error usage)
    (hDur : ∀ a, ext.ParseDuration a ≠ .error usage)
    (hdec : stdin ≠ .error usage) :
    (run ext Args stdin now = .error usage ↔
      (Args.length < 3 ∨ ¬ validStatus (Args.getD 1 ""))) ∧
    ((Args.length < 3 ∨ ¬ validStatus (Args.getD 1 "")) →
      ∀ stdin' now', run ext Args stdin' now' = .error usage) ∧
    (Args.getD 1 "" = Pending → run ext Args stdin now = .error usage) ∧
    (validStatus (if Args.length > 2 then Args.getD 1 "" else "") →
      ∃ repoName, Args.get? 2 = some repoName) ∧
    (run ext Args stdin now = .ok .panicked →
      ∃ repoName repoSize schedule repoList, Args.get? 2 = some repoName ∧
        stdin = .ok repoList ∧
        run.upsertPtr ext.ByteUnit (Args.getD 1 "") repoName repoSize schedule now repoList
          = .panicked) := by
  have hread : validStatus (if Args.length > 2 then Args.getD 1 "" else "") →
      ∃ repoName, Args.get? 2 = some repoName := by
    intro hv
    by_cases hl : Args.length > 2
    · rw [List.get?_eq_get hl]; exact ⟨_, rfl⟩
    · rw [if_neg hl] at hv
      exact absurd hv (by decide)
  by_cases h : Args.length < 3 ∨ ¬ validStatus (Args.getD 1 "")
  · have hrun := run_usage ext Args stdin now h
    refine ⟨⟨fun _ => h, fun _ => hrun⟩, fun _ stdin' now' => run_usage ext Args stdin' now' h,
      fun _ => hrun, hread, ?_⟩
    rw [hrun]; intro hc; cases hc
  · have hl : 3 ≤ Args.length := by
      by_contra hc; exact h (Or.inl (by omega))
    have hv : validStatus (Args.getD 1 "") := by
      by_contra hc; exact h (Or.inr hc)
    obtain ⟨repoName, hn, hrun⟩ := run_valid ext Args stdin now hl hv
    have hnot : run ext Args stdin now ≠ .error usage ∧
        (run ext Args stdin now = .ok .panicked →
          ∃ repoName repoSize schedule repoList, Args.get? 2 = some repoName ∧
            stdin = .ok repoList ∧
            run.upsertPtr ext.ByteUnit (Args.getD 1 "") repoName repoSize schedule now
              repoList = .panicked) := by
      rw [hrun]
      cases h3 : (if Args.length > 3 then ext.ParseInt (Args.getD 3 "") else .ok 0) with
      | error e =>
        have he : e ≠ usage := by
          intro hc; subst hc
          by_cases hlen : Args.length > 3
          · rw [if_pos hlen] at h3; exact hInt _ h3
          · rw [if_neg hlen] at h3; cases h3
        exact ⟨fun hc => he (Except.error.inj hc), fun hc => by cases hc⟩
      | ok repoSize =>
        cases h4 : (if Args.length > 4 then ext.ParseDuration (Args.getD 4 "") else .ok 0) with
        | error e =>
          have he : e ≠ usage := by
            intro hc; subst hc
            by_cases hlen : Args.length > 4
            · rw [if_pos hlen] at h4; exact hDur _ h4
            · rw [if_neg hlen] at h4; cases h4
          exact ⟨fun hc => he (Except.error.inj hc), fun hc => by cases hc⟩
        | ok schedule =>
          cases stdin with
          | error e =>
            have he : e ≠ usage := fun hc => hdec (by rw [hc])
            exact ⟨fun hc => he (Except.error.inj hc), fun hc => by cases hc⟩
          | ok repoList =>
            refine ⟨fun hc => (by cases hc), fun hc => ?_⟩
            exact ⟨repoName, repoSize, schedule, repoList, hn, rfl, Except.ok.inj hc⟩
    refine ⟨⟨fun hc => absurd hc hnot.1, fun hc => absurd hc h⟩, fun hc => absurd hc h, ?_,
      hread, hnot.2⟩
    intro hp
    rw [hp] at hv
    exact absurd hv (by decide)

theorem C14_witness :
    (run sampleExternals ["dumb", "pending", "repo-a"] (.ok []) sampleNow
        = .error usage ↔
      (["dumb", "pending", "repo-a"].length < 3 ∨
        ¬ validStatus (["dumb", "pending", "repo-a"].getD 1 ""))) ∧
    ((["dumb", "pending", "repo-a"].length < 3 ∨
        ¬ validStatus (["dumb", "pending", "repo-a"].getD 1 "")) →
      ∀ stdin' now', run sampleExternals ["dumb", "pending", "repo-a"] stdin' now'
        = .error usage) ∧
    (["dumb", "pending", "repo-a"].getD 1 "" = Pending →
      run sampleExternals ["dumb", "pending", "repo-a"] (.ok []) sampleNow
        = .error usage) ∧
    (validStatus (if ["dumb", "pending", "repo-a"].length > 2
        then ["dumb", "pending", "repo-a"].getD 1 "" else "") →
      ∃ repoName, ["dumb", "pending", "repo-a"].get? 2 = some repoName) ∧
    (run sampleExternals ["dumb", "pending", "repo-a"] (.ok []) sampleNow = .ok .panicked →
      ∃ repoName repoSize schedule repoList,
        ["dumb", "pending", "repo-a"].get? 2 = some repoName ∧
        (.ok [] : Except String (List (Option Repo))) = .ok repoList ∧
        run.upsertPtr sampleExternals.ByteUnit (["dumb", "pending", "repo-a"].getD 1 "")
          repoName repoSize schedule sampleNow repoList = .panicked) :=
  C14_status_validation sampleExternals ["dumb", "pending", "repo-a"] (.ok []) sampleNow
    (by
      intro a h
      simp only [sampleExternals] at h
      cases hp : a.toInt? with
      | none => rw [hp] at h; exact absurd (Except.error.inj h) (by decide)
      | some n => rw [hp] at h; cases h)
    (by
      intro a h
      exact absurd (Except.error.inj h) (by decide))
    (by intro h; cases h)

/-- With a valid status and the match reachable, the upsert emits a collection
that holds a record with the target name in the new status. -/
theorem upsertPtr_member (B : Int → String) (s : Status) (R : String) (size sched : Int)
    (now : Time) (lp : List (Option Repo)) (hs : validStatus s)
    (hreach : matchReachable R lp = true) :
    ∃ out rec, run.upsertPtr B s R size sched now lp = .encoded out ∧ some rec ∈ out ∧
      rec.Name = R ∧ rec.Status = s := by
  rcases reachable_split R lp hreach with ⟨a, r, b, hl, ha, hr⟩ | hall
  · obtain ⟨r', hu⟩ := update_isSome B s size sched now r hs
    have hf := update_frame B s size sched now r r' hs hu
    subst hl
    exact ⟨_, r', upsertPtr_present B s R size sched now a b r r' ha hr hu, by simp,
      hf.1.trans hr, hf.2.2.2⟩
  · obtain ⟨r', hu⟩ := update_isSome B s size sched now { Name := R, IsMaster := true } hs
    have hf := update_frame B s size sched now _ r' hs hu
    exact ⟨_, r', upsertPtr_absent B s R size sched now lp r' hall hu, by simp, hf.1,
      hf.2.2.2⟩

/-- C15, as stated, fails: with the empty string as repository name `run`
reports no error; on the empty collection it emits a collection with a record
of that name, and on a collection with a null element it panics, again without
reporting an error. -/
theorem C15_counterexample :
    run sampleExternals ["dumb", "syncing", ""] (.ok []) sampleNow =
      .ok (.encoded [some { Name := "", IsMaster := true, Status := "syncing",
                            LastStartedISO8601 := "2026-11-04T14:04:00+01:00",
                            LastStartedTimestamp := 1793797440 }]) ∧
    run sampleExternals ["dumb", "syncing", ""] (.ok [none]) sampleNow = .ok .panicked :=
  ⟨by rfl, by rfl⟩

/-- C15, amended. An empty repository name is not rejected: when two arguments
follow the program name, the first a valid status and the second the empty
string, the size and offset arguments (if given) parse and the input decodes to
a collection in which no null element stands before the first record with the
empty name, `run` applies the upsert with the empty target name and emits a
collection that holds a record with the empty name in the new status. -/
theorem C15_empty_name_accepted (ext : Externals) (Args : List String)
    (stdin : Except String (List (Option Repo))) (now : Time) (lp : List (Option Repo))
    (size sched : Int)
    (hl : 3 ≤ Args.length) (hv : validStatus (Args.getD 1 ""))
    (hname : Args.get? 2 = some "")
    (hsize : (if Args.length > 3 then ext.ParseInt (Args.getD 3 "") else .ok 0) = .ok size)
    (hsched : (if Args.length > 4 then ext.ParseDuration (Args.getD 4 "") else .ok 0)
      = .ok sched)
    (hin : stdin = .ok lp) (hreach : matchReachable "" lp = true) :
    run ext Args stdin now
      = .ok (run.upsertPtr ext.ByteUnit (Args.getD 1 "") "" size sched now lp) ∧
    ∃ out rec, run ext Args stdin now = .ok (.encoded out) ∧ some rec ∈ out ∧
      rec.Name = "" ∧ rec.Status = Args.getD 1 "" := by
  obtain ⟨repoName, hn, hrun⟩ := run_valid ext Args stdin now hl hv
  have hrn : repoName = "" := by
    rw [hname] at hn; exact (Option.some.inj hn).symm
  subst hrn
  have hrun2 : run ext Args stdin now
      = .ok (run.upsertPtr ext.ByteUnit (Args.getD 1 "") "" size sched now lp) := by
    rw [hrun, hsize, hsched, hin]
  refine ⟨hrun2, ?_⟩
  obtain ⟨out, rec, ho, hmem, hnm, hst⟩ :=
    upsertPtr_member ext.ByteUnit (Args.getD 1 "") "" size sched now lp hv hreach
  exact ⟨out, rec, by rw [hrun2, ho], hmem, hnm, hst⟩

theorem C15_witness :
    run sampleExternals ["dumb", "failed", ""] (.ok [some { Name := "repo-b" }]) sampleNow
      = .ok (run.upsertPtr sampleExternals.ByteUnit (["dumb", "failed", ""].getD 1 "") "" 0 0
          sampleNow [some { Name := "repo-b" }]) ∧
    ∃ out rec, run sampleExternals ["dumb", "failed", ""] (.ok [some { Name := "repo-b" }])
        sampleNow = .ok (.encoded out) ∧ some rec ∈ out ∧ rec.Name = "" ∧
      rec.Status = ["dumb", "failed", ""].getD 1 "" :=
  C15_empty_name_accepted sampleExternals ["dumb", "failed", ""]
    (.ok [some { Name := "repo-b" }]) sampleNow [some { Name := "repo-b" }] 0 0
    (by decide) (by decide) rfl rfl rfl rfl (by decide)

/-! ## Find by name -/

/-- "Find by name" finds nothing when no record has the name. -/
theorem findByName_absent (R : String) :
    ∀ lp : List (Option Repo), (∀ x ∈ lp, x.map Repo.Name ≠ some R) →
      spec.findByName R lp = none := by
  intro lp
  induction lp with
  | nil => intro _; rfl
  | cons x xs ih =>
    intro h
    have hxs : ∀ y ∈ xs, y.map Repo.Name ≠ some R :=
      fun y hy => h y (List.mem_cons_of_mem _ hy)
    cases x with
    | none => simp [spec.findByName, ih hxs]
    | some y =>
      have hy : y.Name ≠ R := by
        have := h (some y) (List.mem_cons_self _ _)
        simpa using this
      simp [spec.findByName, hy, ih hxs]

/-- "Find by name" finds the first record with the name. -/
theorem findByName_present (R : String) (r : Repo) (b : List (Option Repo))
    (hr : r.Name = R) :
    ∀ a : List (Option Repo), (∀ x ∈ a, x.map Repo.Name ≠ some R) →
      spec.findByName R (a ++ some r :: b) = some a.length := by
  intro a
  induction a with
  | nil => intro _; simp [spec.findByName, hr]
  | cons x xs ih =>
    intro h
    have hxs : ∀ y ∈ xs, y.map Repo.Name ≠ some R :=
      fun y hy => h y (List.mem_cons_of_mem _ hy)
    cases x with
    | none => simp [spec.findByName, ih hxs]
    | some y =>
      have hy : y.Name ≠ R := by
        have := h (some y) (List.mem_cons_self _ _)
        simpa using this
      simp [spec.findByName, hy, ih hxs]

/-- C16, as stated, fails: on `[null, repo-a]` the two-branch operation finds
the record named `repo-a` at index 1 and replaces it, while the code panics at
the null element and has no output. -/
theorem C16_counterexample :
    spec.upsert sampleByteUnit Success "repo-a" 0 0 sampleNow
        [none, some { Name := "repo-a" }] =
      [none, some { Name := "repo-a", Status := "success",
                    LastUpdateISO8601 := "2026-11-04T14:04:00+01:00",
                    LastUpdateTimestamp := 1793797440,
                    LastEndedISO8601 := "2026-11-04T14:04:00+01:00",
                    LastEndedTimestamp := 1793797440 }] ∧
    run.upsertPtr sampleByteUnit Success "repo-a" 0 0 sampleNow
        [none, some { Name := "repo-a" }] = .panicked :=
  ⟨by rfl, by rfl⟩

/-- C16, amended. On a collection in which no null element stands before the
first record named the target name, the append-scan-drop upsert of the code
equals the explicit two-branch operation: find the first index whose record
has the target name; if there is one, replace the record at that index by its
transitioned version, the length unchanged; otherwise append the transitioned
version of the fresh record with the target name and `IsMaster = true`. -/
theorem C16_two_branch_upsert (B : Int → String) (s : Status) (R : String)
    (size sched : Int) (now : Time) (lp : List (Option Repo)) (hs : validStatus s)
    (hreach : matchReachable R lp = true) :
    run.upsertPtr B s R size sched now lp = .encoded (spec.upsert B s R size sched now lp) ∧
      (spec.upsert B s R size sched now lp).length
        = (if (spec.findByName R lp).isSome then lp.length else lp.length + 1) := by
  rcases reachable_split R lp hreach with ⟨a, r, b, hl, ha, hr⟩ | hall
  · subst hl
    have hfind := findByName_present R r b hr a (fun x hx => (ha x hx).2)
    have hget : (a ++ some r :: b)[a.length]? = some (some r) := by
      rw [List.getElem?_append_right (le_refl _)]; simp
    have hspec : spec.upsert B s R size sched now (a ++ some r :: b)
        = a ++ some (spec.transition B s size sched now r) :: b := by
      simp only [spec.upsert, hfind, hget]
      simp
    rw [hspec, hfind]
    exact ⟨upsertPtr_present B s R size sched now a b r _ ha hr
      (update_eq_transition B s size sched now r hs), by simp⟩
  · have hfind := findByName_absent R lp (fun x hx => (hall x hx).2)
    have hspec : spec.upsert B s R size sched now lp
        = lp ++ [some (spec.transition B s size sched now { Name := R, IsMaster := true })] := by
      simp only [spec.upsert, hfind]
    rw [hspec, hfind]
    exact ⟨upsertPtr_absent B s R size sched now lp _ hall
      (update_eq_transition B s size sched now _ hs), by simp⟩

theorem C16_witness :
    run.upsertPtr sampleByteUnit Success "repo-a" 7 3600000000000 sampleNow
        [some { Name := "repo-b" }, some { Name := "repo-a" }, none]
      = .encoded (spec.upsert sampleByteUnit Success "repo-a" 7 3600000000000 sampleNow
        [some { Name := "repo-b" }, some { Name := "repo-a" }, none]) ∧
      (spec.upsert sampleByteUnit Success "repo-a" 7 3600000000000 sampleNow
        [some { Name := "repo-b" }, some { Name := "repo-a" }, none]).length
        = (if (spec.findByName "repo-a"
            [some { Name := "repo-b" }, some { Name := "repo-a" }, none]).isSome
          then [some ({ Name := "repo-b" } : Repo), some { Name := "repo-a" }, none].length
          else [some ({ Name := "repo-b" } : Repo), some { Name := "repo-a" },
            none].length + 1) :=
  C16_two_branch_upsert sampleByteUnit Success "repo-a" 7 3600000000000 sampleNow
    [some { Name := "repo-b" }, some { Name := "repo-a" }, none] (by decide) (by decide)

/-- C17, as stated, fails: the decoder stores a nil pointer for a `null` element
of the input, and on the decoded collection `[nil]` the loop panics at line 85
before it reaches the appended record. -/
theorem C17_counterexample :
    run.upsertPtr sampleByteUnit Syncing "repo-a" 0 0 sampleNow [none] = .panicked := by
  rfl

/-- C17, amended. The engine always matches: for every collection of records
(empty included), target name `R` and valid status, the list with the
placeholder appended holds a record named `R`, the loop emits a collection, on
the records as on the pointers to them, and does not fall through to
`return nil`; and on every decoded collection, nil pointers or not, the
fall-through `return nil` is not reached. -/
theorem C17_always_matches (B : Int → String) (s : Status) (R : String)
    (size sched : Int) (now : Time) (l : List Repo) (lp : List (Option Repo))
    (hs : validStatus s) :
    (∃ (i : Nat) (r : Repo),
      (l ++ [({ Name := R, IsMaster := true } : Repo)])[i]? = some r ∧ r.Name = R) ∧
    (∃ out, run.upsert B s R size sched now l = .encoded out ∧
      run.upsertPtr B s R size sched now (l.map some) = .encoded (out.map some)) ∧
    run.upsert B s R size sched now l ≠ .returnedNil ∧
    run.upsertPtr B s R size sched now lp ≠ .returnedNil := by
  obtain ⟨out, hout⟩ := upsert_encoded B s R size sched now l hs
  refine ⟨⟨l.length, { Name := R, IsMaster := true }, by simp, rfl⟩, ⟨out, hout, ?_⟩, ?_, ?_⟩
  · have h := loopPtr_map B s R size sched now
      (l ++ [({ Name := R, IsMaster := true } : Repo)])
      (l ++ [({ Name := R, IsMaster := true } : Repo)]) 0 out hout
    simpa [run.upsertPtr] using h
  · rw [hout]; exact fun hc => Outcome.noConfusion hc
  · unfold run.upsertPtr
    exact loopPtr_ne_returnedNil B s R size sched now _ _ 0
      ⟨{ Name := R, IsMaster := true }, by simp, rfl⟩

theorem C17_witness :
    (∃ (i : Nat) (r : Repo),
      (([] : List Repo) ++ [({ Name := "repo-a", IsMaster := true } : Repo)])[i]? = some r ∧
        r.Name = "repo-a") ∧
    (∃ out, run.upsert sampleByteUnit Failed "repo-a" 0 0 sampleNow [] = .encoded out ∧
      run.upsertPtr sampleByteUnit Failed "repo-a" 0 0 sampleNow (([] : List Repo).map some)
        = .encoded (out.map some)) ∧
    run.upsert sampleByteUnit Failed "repo-a" 0 0 sampleNow [] ≠ .returnedNil ∧
    run.upsertPtr sampleByteUnit Failed "repo-a" 0 0 sampleNow
      [some { Name := "repo-a" }, none] ≠ .returnedNil :=
  C17_always_matches sampleByteUnit Failed "repo-a" 0 0 sampleNow []
    [some { Name := "repo-a" }, none] (by decide)

/-! ## Tag dispatch -/

/-- C18. Tag dispatch in `setTime` is safe: for each of the statuses pending,
syncing, success and failed, a field of `Repo` whose `status` tag contains the
status string is of kind string and is followed by a field of kind int64 (so
`SetString` on it and `SetInt` on the next field succeed on every record), the
status is one of the comma-separated entries of the tag, and `setTime` with
that status does not panic. -/
theorem C18_tag_dispatch_safe (s : Status)
    (hs : s = Pending ∨ s = Syncing ∨ s = Success ∨ s = Failed)
    (i : Nat) (f : StructField) (hf : Repo.fields[i]? = some f)
    (hm : strings.Contains f.statusTag s = true) :
    f.Kind = .String ∧
    (∃ g, Repo.fields[i + 1]? = some g ∧ g.Kind = .Int64) ∧
    s ∈ tagEntries f.statusTag ∧
    (∀ (r : Repo) (v : String), (r.SetString i v).isSome = true) ∧
    (∀ (r : Repo) (n : Int), (r.SetInt (i + 1) n).isSome = true) ∧
    (∀ (r : Repo) (t : Time), (setTime r s t).isSome = true) := by
  have hi : i < 14 := by
    have := (List.getElem?_eq_some.mp hf).1
    simpa [Repo.fields] using this
  have hset : ∀ (r : Repo) (t : Time), (setTime r s t).isSome = true := by
    intro r t
    rcases hs with h | h | h | h <;> subst h
    · rw [setTime_Pending]; rfl
    · rw [setTime_Syncing]; rfl
    · rw [setTime_Success]; rfl
    · rw [setTime_Failed]; rfl
  interval_cases i <;> simp only [Repo.fields, List.getElem?_cons_succ, List.getElem?_cons_zero,
      Option.some.injEq] at hf <;> subst hf <;>
    rcases hs with h | h | h | h <;> subst h <;>
    first
      | exact absurd hm (by decide)
      | exact ⟨rfl, ⟨_, rfl, rfl⟩, by decide, fun _ _ => rfl, fun _ _ => rfl, hset⟩

theorem C18_witness :
    (⟨"LastEndedISO8601", .String, "success,failed"⟩ : StructField).Kind = .String ∧
    (∃ g, Repo.fields[8 + 1]? = some g ∧ g.Kind = .Int64) ∧
    Failed ∈ tagEntries
      (⟨"LastEndedISO8601", .String, "success,failed"⟩ : StructField).statusTag ∧
    (∀ (r : Repo) (v : String), (r.SetString 8 v).isSome = true) ∧
    (∀ (r : Repo) (n : Int), (r.SetInt (8 + 1) n).isSome = true) ∧
    (∀ (r : Repo) (t : Time), (setTime r Failed t).isSome = true) :=
  C18_tag_dispatch_safe Failed (by decide) 8 ⟨"LastEndedISO8601", .String, "success,failed"⟩
    (by decide) (by decide)

end Dumb
